import Mathlib

/-!
Verification of the sdr-scanner Scan/Record/Transcribe coordinator.

The TypeScript modules (packages/main/src/modules/Scanner.ts, SDRService.ts,
Database.ts, the TranscriptionService bundled in Settings.ts, and the
part_008 Scanner variant) are shallowly embedded as pure Lean functions over
explicit state records.  Timers are modelled as armed/not-armed flags with
explicit expiry events; asynchronous tuning, file writes and file closes are
modelled by boolean outcome parameters supplied by the environment; JS number
arithmetic is modelled exactly (every integer that reaches the arithmetic in
question is far below 2^53, where IEEE doubles are exact on integers).
-/

namespace SdrScanner

/-! ## JS string and number primitives

Exact models of the string/number operations used by
`createRecordingFileName` (SDRService.ts) and `parseRecordingFileName`
(Database.ts): decimal rendering of integers, `String.prototype.split`,
single-occurrence `String.prototype.replace`, `parseFloat` on plain decimal
literals, and `Math.round`. -/

/-- A digit character, as produced by JS number-to-string conversion. -/
def digitChar (d : Nat) : Char := Char.ofNat (48 + d)

/-- Fuel-driven decimal rendering (the fuel keeps the recursion structural,
so that proofs and concrete evaluations both reduce). -/
def natDigitsAux (fuel n : Nat) : List Char :=
  match fuel with
  | 0 => []
  | fuel + 1 =>
    if n < 10 then [digitChar n]
    else natDigitsAux fuel (n / 10) ++ [digitChar (n % 10)]

/-- Decimal digit list of a natural number (most significant first). -/
def natDigits (n : Nat) : List Char := natDigitsAux (n + 1) n

/-- Decimal digit folding, the numeric content of a digit string. -/
def parseDigits (cs : List Char) : Nat :=
  cs.foldl (fun a c => a * 10 + (c.toNat - 48)) 0

/-- Zero-pad to two digits, as dayjs `MM`/`DD`/`HH`/`mm`/`ss` tokens do. -/
def pad2 (n : Nat) : List Char :=
  (if n < 10 then ['0'] else []) ++ natDigits n

/-- Zero-pad to three digits, the fractional part of `toFixed(3)`. -/
def pad3 (n : Nat) : List Char :=
  (if n < 10 then ['0', '0'] else if n < 100 then ['0'] else []) ++ natDigits n

/-- Zero-pad to four digits, as the dayjs `YYYY` token does. -/
def pad4 (n : Nat) : List Char :=
  (if n < 10 then ['0', '0', '0']
   else if n < 100 then ['0', '0']
   else if n < 1000 then ['0'] else []) ++ natDigits n

/-- JS `s.split(sep)` for a one-character separator: `"".split` is `[""]`,
separators at the ends produce empty components. -/
def jsSplit (sep : Char) : List Char → List (List Char)
  | [] => [[]]
  | c :: cs =>
    if c = sep then [] :: jsSplit sep cs
    else
      match jsSplit sep cs with
      | [] => [[c]]
      | h :: t => (c :: h) :: t

/-- JS `s.replace(a, b)` with one-character string arguments: replaces only
the first occurrence. -/
def replaceFirst (a b : Char) : List Char → List Char
  | [] => []
  | c :: cs => if c = a then b :: cs else c :: replaceFirst a b cs

/-- The regex replace `/\.wav$/` → `""`: drop a trailing `.wav` if present. -/
def stripWav (cs : List Char) : List Char :=
  if cs.drop (cs.length - 4) = '.' :: 'w' :: 'a' :: 'v' :: [] then
    cs.take (cs.length - 4)
  else cs

/-- Fuel-driven base-2 logarithm (structural, so proofs and concrete
evaluations both reduce). -/
def natLog2Aux (fuel n : Nat) : Nat :=
  match fuel with
  | 0 => 0
  | fuel + 1 => if n < 2 then 0 else natLog2Aux fuel (n / 2) + 1

/-- `⌊log2 n⌋` for positive `n`. -/
def natLog2 (n : Nat) : Nat := natLog2Aux n n

/-- Floor of a rational, computably (Euclidean division of the numerator). -/
def ratFloor (q : ℚ) : ℤ := q.num / (q.den : ℤ)

/-- Decides `2^t ≤ q` for a positive rational by cross-multiplication. -/
def pow2LeRat (t : ℤ) (q : ℚ) : Bool :=
  if 0 ≤ t then (2 ^ t.toNat * q.den : ℤ) ≤ q.num
  else (q.den : ℤ) ≤ q.num * 2 ^ (-t).toNat

/-- `⌊log2 q⌋` for a positive rational. -/
def floorLog2Rat (q : ℚ) : ℤ :=
  let t : ℤ := (natLog2 q.num.toNat : ℤ) - (natLog2 q.den : ℤ)
  if pow2LeRat t q then t else t - 1

/-- Round `A / B` to the nearest natural, ties to even (the IEEE default
rounding used by JS `parseFloat`, `*` and `/`). -/
def roundHalfEvenNat (A B : Nat) : Nat :=
  let n0 := A / B
  let r := A % B
  if 2 * r < B then n0
  else if B < 2 * r then n0 + 1
  else if n0 % 2 = 0 then n0 else n0 + 1

/-- Numerator/denominator pair of `q / 2^e` for a positive rational `q`. -/
def mantissaNum (q : ℚ) (e : ℤ) : Nat × Nat :=
  if 0 ≤ e then (q.num.toNat, q.den * 2 ^ e.toNat)
  else (q.num.toNat * 2 ^ (-e).toNat, q.den)

/-- The IEEE binary64 value nearest to a nonnegative rational: scale by the
power of two that puts the value in `[2^52, 2^53)` and round the mantissa
to nearest, ties to even.  (Overflow and subnormals are outside the range
this program ever computes with and are not modelled; negative inputs do
not occur.)  Every JS double operation below rounds its exact result with
this function. -/
def roundToDouble (q : ℚ) : ℚ :=
  if q.num ≤ 0 then 0
  else
    let e := floorLog2Rat q - 52
    let p := mantissaNum q e
    let n := roundHalfEvenNat p.1 p.2
    if 0 ≤ e then ((n * 2 ^ e.toNat : ℕ) : ℚ)
    else (n : ℚ) / ((2 ^ (-e).toNat : ℕ) : ℚ)

/-- Exact mathematical value of the plain decimal literals this program
produces (`digits` or `digits.digits`). -/
def decimalValue (cs : List Char) : ℚ :=
  match jsSplit '.' cs with
  | [] => 0
  | [intPart] => (parseDigits intPart : ℚ)
  | intPart :: fracPart :: _ =>
    (parseDigits intPart : ℚ) + (parseDigits fracPart : ℚ) / (10 : ℚ) ^ fracPart.length

/-- JS `parseFloat` on those literals: the exact decimal value rounded to
the nearest IEEE double. -/
def jsParseFloat (cs : List Char) : ℚ := roundToDouble (decimalValue cs)

/-- JS `Math.round`: nearest integer, ties toward positive infinity
(exact on its double argument). -/
def jsRound (q : ℚ) : Int := ratFloor (q + 1 / 2)

/-! ## Recording file naming (SDRService.ts `createRecordingFileName`,
Database.ts `parseRecordingFileName`) -/

/-- A wall-clock timestamp as dayjs observes it when a recording starts. -/
structure Timestamp where
  year : Nat
  month : Nat
  day : Nat
  hour : Nat
  minute : Nat
  second : Nat
deriving Repr, DecidableEq

/-- The dayjs `format('MM-DD-YYYY-HH-mm-ss')` call in
`createRecordingFileName`. -/
def formatStamp (t : Timestamp) : List Char :=
  pad2 t.month ++ '-' :: pad2 t.day ++ '-' :: pad4 t.year ++ '-' ::
    pad2 t.hour ++ '-' :: pad2 t.minute ++ '-' :: pad2 t.second

/-- JS `Number.prototype.toFixed(3)` on the nonnegative doubles this
program produces: the value rounded to three decimals, ties away from
zero, rendered with a three-digit fractional part. -/
def toFixed3 (x : ℚ) : List Char :=
  let scaled := (ratFloor (x * 1000 + 1 / 2)).toNat
  natDigits (scaled / 1000) ++ '.' :: pad3 (scaled % 1000)

/-- SDRService.ts `createRecordingFileName`: the double division
`frequencyHz / 1_000_000`, its `toFixed(3)` rendering with `'.'` replaced
by `'-'`, then `_`, the timestamp, `.wav`.  (`frequencyHz`, an integer
below 2^53, is itself an exact double.) -/
def createRecordingFileName (frequencyHz : Nat) (now : Timestamp) : String :=
  let freqMHz := roundToDouble ((frequencyHz : ℚ) / 1000000)
  let freqFormatted := replaceFirst '.' '-' (toFixed3 freqMHz)
  String.mk (freqFormatted ++ '_' :: formatStamp now ++ '.' :: 'w' :: 'a' :: 'v' :: [])

/-- Database.ts `parseRecordingFileName`: strips `.wav`, splits on `_`,
recovers the frequency via `parseFloat(freqPart.replace('-', '.'))` and
`Math.round(freqMHz * 1_000_000)` — a double multiplication, hence rounded
— and reassembles the date fields into an ISO-8601 string. -/
def parseRecordingFileName (fileName : String) : Int × String :=
  let nameWithoutExt := stripWav fileName.data
  let parts := jsSplit '_' nameWithoutExt
  let freqPart := parts.headD []
  let datePart := (parts.drop 1).headD []
  let freqMHz := jsParseFloat (replaceFirst '-' '.' freqPart)
  let frequencyHz := jsRound (roundToDouble (freqMHz * 1000000))
  let dps := jsSplit '-' datePart
  let month := dps.getD 0 []
  let day := dps.getD 1 []
  let year := dps.getD 2 []
  let hour := dps.getD 3 []
  let minute := dps.getD 4 []
  let sec := dps.getD 5 []
  (frequencyHz,
   String.mk (year ++ '-' :: month ++ '-' :: day ++ 'T' :: hour ++ ':' :: minute ++ ':' :: sec))

/-- The canonical ISO-8601 rendering of a timestamp, used to state the
naming round trip. -/
def isoOfStamp (t : Timestamp) : String :=
  String.mk (pad4 t.year ++ '-' :: pad2 t.month ++ '-' :: pad2 t.day ++ 'T' ::
    pad2 t.hour ++ ':' :: pad2 t.minute ++ ':' :: pad2 t.second)

/-! ## Profile frequencies (Database.ts) -/

/-- A `ProfileFrequency` row as Database.ts exposes it. -/
structure ProfileFrequency where
  Id : Nat
  ProfileId : Nat
  FrequencyHz : Nat
  Channel : Option Int
  Enabled : Bool
deriving Repr, DecidableEq

/-- Database.ts `profileFrequencyRepository.getEnabledByProfileId`: the SQL
query `WHERE ProfileId = ? AND Enabled = 1 ORDER BY FrequencyHz`, modelled
over the table contents as filter-then-sort. -/
def getEnabledByProfileId (rows : List ProfileFrequency) (profileId : Nat) :
    List ProfileFrequency :=
  (rows.filter (fun r => r.ProfileId = profileId && r.Enabled)).mergeSort
    (fun a b => a.FrequencyHz ≤ b.FrequencyHz)

/-! ## Scanner module (packages/main/src/modules/Scanner.ts)

The module-level `scannerState` record and `unsquelchTimer` variable are
bundled into `ScanCtx`; `unsquelchTimer = true` means a scheduled, not yet
fired, not yet cancelled unsquelch-wait timeout exists.  Each operation
returns a `ScanOut`: the new context, the frequency the radio was
successfully tuned to during the call (if any), the notifications sent to
the renderer (payload reduced to the frequency and the
`hasReceivedActiveSignal` flag), and the `{success, error}` outcome.  The
boolean `tuneOk` argument is the environment's verdict on the awaited
`radio.setFrequency` call (`false` covers both "SDR is not running" and a
device rejection); state mutations written before the `await` persist even
when it fails, exactly as the module-level mutations do in the source. -/

/-- Renderer notifications the scanner emits. -/
inductive Notif where
  | started (profileId : Nat) (frequency : Option Nat)
  | stopped
  | freqChange (frequency : Option Nat) (hasReceivedActiveSignal : Bool)
deriving Repr, DecidableEq

/-- Scanner.ts `ScannerState`. -/
structure ScannerState where
  isScanning : Bool
  profileId : Option Nat
  frequencies : List ProfileFrequency
  currentIndex : Nat
  currentFrequency : Option ProfileFrequency
  hasReceivedActiveSignal : Bool
  waitingForUnsquelch : Bool
deriving Repr, DecidableEq

/-- `scannerState` plus the module-level `unsquelchTimer` variable. -/
structure ScanCtx where
  st : ScannerState
  unsquelchTimer : Bool
deriving Repr, DecidableEq

/-- Result of one scanner operation. -/
structure ScanOut where
  ctx : ScanCtx
  tuned : Option Nat
  notifs : List Notif
  ok : Bool
  error : Option String
deriving Repr, DecidableEq

/-- An operation that returns leaving the context unchanged. -/
def scanNoop (c : ScanCtx) : ScanOut :=
  { ctx := c, tuned := none, notifs := [], ok := true, error := none }

/-- The initial module state of Scanner.ts. -/
def scanCtx0 : ScanCtx :=
  { st := { isScanning := false, profileId := none, frequencies := [],
            currentIndex := 0, currentFrequency := none,
            hasReceivedActiveSignal := false, waitingForUnsquelch := false },
    unsquelchTimer := false }

/-- Scanner.ts `moveToNextFrequency` (lines 173-196): returns early unless
scanning with a non-empty list; advances `currentIndex` with wrap-around,
installs the next entry as current, resets both per-frequency flags, then
awaits `setFrequency` and notifies.  A tuning failure escapes after the
state mutations; no notification is sent in that case. -/
def moveToNextFrequency (c : ScanCtx) (tuneOk : Bool) : ScanOut :=
  if !c.st.isScanning || c.st.frequencies.length = 0 then scanNoop c
  else
    let idx := (c.st.currentIndex + 1) % c.st.frequencies.length
    let next := c.st.frequencies[idx]?
    let st' := { c.st with
      currentIndex := idx, currentFrequency := next,
      hasReceivedActiveSignal := false, waitingForUnsquelch := false }
    let c' : ScanCtx := { st := st', unsquelchTimer := c.unsquelchTimer }
    if tuneOk then
      { ctx := c', tuned := next.map (·.FrequencyHz),
        notifs := [Notif.freqChange (next.map (·.FrequencyHz)) false],
        ok := true, error := none }
    else
      { ctx := c', tuned := none, notifs := [], ok := false,
        error := some "SDR is not running" }

/-- Scanner.ts `handleAudioData` (lines 202-262): ignores frames unless
scanning; a non-squelched frame latches `hasReceivedActiveSignal` (notifying
on the transition) and cancels a running wait timer; a squelched frame
advances immediately when no active signal was ever seen, arms the
unsquelch-wait timer when one was seen and none is pending, and otherwise
does nothing. -/
def handleAudioData (c : ScanCtx) (squelched : Bool) (tuneOk : Bool) : ScanOut :=
  if !c.st.isScanning then scanNoop c
  else if !squelched then
    let stepA :=
      if !c.st.hasReceivedActiveSignal then
        ({ c.st with hasReceivedActiveSignal := true },
         [Notif.freqChange (c.st.currentFrequency.map (·.FrequencyHz)) true])
      else (c.st, ([] : List Notif))
    let st1 := stepA.1
    let ctx' : ScanCtx :=
      if st1.waitingForUnsquelch then
        { st := { st1 with waitingForUnsquelch := false }, unsquelchTimer := false }
      else { st := st1, unsquelchTimer := c.unsquelchTimer }
    { ctx := ctx', tuned := none, notifs := stepA.2, ok := true, error := none }
  else
    if !c.st.hasReceivedActiveSignal then
      moveToNextFrequency c tuneOk
    else if !c.st.waitingForUnsquelch then
      { ctx := { st := { c.st with waitingForUnsquelch := true }, unsquelchTimer := true },
        tuned := none, notifs := [], ok := true, error := none }
    else scanNoop c

/-- Expiry of the unsquelch-wait timeout scheduled in `handleAudioData`: the
event is only deliverable while a timeout is pending (the timer is consumed
by firing); the callback advances only when still scanning and still
waiting. -/
def fireUnsquelchTimer (c : ScanCtx) (tuneOk : Bool) : ScanOut :=
  if !c.unsquelchTimer then scanNoop c
  else
    let c0 : ScanCtx := { st := c.st, unsquelchTimer := false }
    if c0.st.isScanning && c0.st.waitingForUnsquelch then
      moveToNextFrequency c0 tuneOk
    else scanNoop c0

/-- Scanner.ts `stopScan` (lines 150-168): clears any pending unsquelch
timer, drops the two per-frequency flags and the scanning flag, preserves
profile, frequencies and current frequency, and notifies when it actually
was scanning. -/
def stopScan (c : ScanCtx) : ScanOut :=
  let wasScanning := c.st.isScanning
  { ctx := { st := { c.st with
               isScanning := false,
               hasReceivedActiveSignal := false,
               waitingForUnsquelch := false },
             unsquelchTimer := false },
    tuned := none,
    notifs := if wasScanning then [Notif.stopped] else [],
    ok := true, error := none }

/-- Scanner.ts `startScan` (lines 72-144): clears a pending timer, stops a
running scan, fails when the enabled list is empty, picks the start index
from the previous current frequency (the JS truthiness test
`if (currentFreqHz)` skips the lookup for frequency 0), installs the new
`scannerState`, then awaits `setFrequency`; a tuning failure is caught and
returned after the state was already installed. -/
def startScan (c : ScanCtx) (profileId : Nat) (frequencies : List ProfileFrequency)
    (tuneOk : Bool) : ScanOut :=
  let c1 : ScanCtx := { st := c.st, unsquelchTimer := false }
  let c2 := if c1.st.isScanning then (stopScan c1).ctx else c1
  if frequencies.length = 0 then
    { ctx := c2, tuned := none, notifs := [], ok := false,
      error := some "No enabled frequencies in profile" }
  else
    let startIndex :=
      match c2.st.currentFrequency with
      | none => 0
      | some f =>
        if f.FrequencyHz ≠ 0 then
          match frequencies.findIdx? (fun g => g.FrequencyHz = f.FrequencyHz) with
          | some i => (i + 1) % frequencies.length
          | none => 0
        else 0
    let chosen := frequencies[startIndex]?
    let st' : ScannerState :=
      { isScanning := true, profileId := some profileId,
        frequencies := frequencies, currentIndex := startIndex,
        currentFrequency := chosen,
        hasReceivedActiveSignal := false, waitingForUnsquelch := false }
    let c' : ScanCtx := { st := st', unsquelchTimer := c2.unsquelchTimer }
    if tuneOk then
      { ctx := c', tuned := chosen.map (·.FrequencyHz),
        notifs := [Notif.started profileId (chosen.map (·.FrequencyHz)),
                   Notif.freqChange (chosen.map (·.FrequencyHz)) false],
        ok := true, error := none }
    else
      { ctx := c', tuned := none, notifs := [], ok := false,
        error := some "SDR is not running" }

/-- Scanner.ts `setFrequencyManually` (lines 268-310): awaits `setFrequency`
first (so a failure leaves the scanner state untouched), then records the
matching profile entry — or a synthetic `Channel = null` entry — as current.
It never touches `waitingForUnsquelch` or the unsquelch timer. -/
def setFrequencyManually (c : ScanCtx) (frequencyHz : Nat) (tuneOk : Bool) : ScanOut :=
  if !tuneOk then
    { ctx := c, tuned := none, notifs := [], ok := false,
      error := some "SDR is not running" }
  else
    let matchingFreq := c.st.frequencies.find? (fun f => f.FrequencyHz = frequencyHz)
    let current : ProfileFrequency :=
      match matchingFreq with
      | some m => m
      | none =>
        { Id := 0, ProfileId := c.st.profileId.getD 0, FrequencyHz := frequencyHz,
          Channel := none, Enabled := true }
    { ctx := { st := { c.st with currentFrequency := some current },
               unsquelchTimer := c.unsquelchTimer },
      tuned := some frequencyHz,
      notifs := [Notif.freqChange (some frequencyHz) false],
      ok := true, error := none }

/-! ## Scanner variant from src/unnamed/part_008

This Scanner version drops the stored `currentIndex` (it is re-derived from
`currentFrequency` by `getCurrentIndex`), lets `moveToNextFrequency` run
outside scanning and return a `{success, error}` result, and adds the
`scanner:moveToNext` IPC handler. -/

/-- The part_008 `ScannerState` (no `currentIndex` field). -/
structure ScannerStateB where
  isScanning : Bool
  profileId : Option Nat
  frequencies : List ProfileFrequency
  currentFrequency : Option ProfileFrequency
  hasReceivedActiveSignal : Bool
  waitingForUnsquelch : Bool
deriving Repr, DecidableEq

/-- part_008 `getCurrentIndex`: `findIndex` of the current frequency, `-1`
when absent, when no current frequency, or when the list is empty. -/
def getCurrentIndexB (st : ScannerStateB) : Int :=
  match st.currentFrequency with
  | none => -1
  | some f =>
    if st.frequencies.length = 0 then -1
    else
      match st.frequencies.findIdx? (fun g => g.FrequencyHz = f.FrequencyHz) with
      | some i => (i : Int)
      | none => -1

/-- part_008 `moveToNextFrequency` (lines 539-566): fails with
`'No frequencies loaded'` on an empty list; otherwise installs the next
entry (wrapping, index 0 when the current frequency is not in the list),
resets both per-frequency flags, and only then awaits `setFrequency` — a
tuning failure is caught and returned with the mutations retained. -/
def moveToNextFrequencyB (st : ScannerStateB) (tuneOk : Bool) :
    ScannerStateB × Bool × Option String :=
  if st.frequencies.length = 0 then (st, false, some "No frequencies loaded")
  else
    let ci := getCurrentIndexB st
    let nextIndex : Nat := if ci = -1 then 0 else (ci.toNat + 1) % st.frequencies.length
    let next := st.frequencies[nextIndex]?
    let st' := { st with
      currentFrequency := next,
      hasReceivedActiveSignal := false, waitingForUnsquelch := false }
    if tuneOk then (st', true, none) else (st', false, some "SDR is not running")

/-! ## SDR service and recording lifecycle (SDRService.ts)

The module-level recording variables of SDRService.ts
(`currentRecordingWriter`/`currentRecordingPath`,
`recordingTimeoutTimer`, `isRecordingEnabled`, `isRunning`, and the radio's
tuned frequency) are combined with the Scanner context into `SysState`.
The open writer/path pair is modelled as a list `recOpen` of
`RecordingSession`s so that the single-open-session invariant is a property
of the guard in `startRecording` (which refuses to start while one is open)
rather than of the state's shape.  `completedPaths` records, in order, the
file paths handed to `doneRecording` by a successful close. -/

/-- The open recording: its file path and the frequency it was named for. -/
structure RecordingSession where
  path : String
  freqHz : Nat
deriving Repr, DecidableEq

/-- Combined main-process state: Scanner module plus SDRService module. -/
structure SysState where
  scan : ScanCtx
  sdrRunning : Bool
  radioFreq : Nat
  recEnabled : Bool
  recOpen : List RecordingSession
  recTimer : Bool
  completedPaths : List String
deriving Repr, DecidableEq

/-- The state after process start: nothing running, nothing recording. -/
def sysState0 : SysState :=
  { scan := scanCtx0, sdrRunning := false, radioFreq := 0, recEnabled := false,
    recOpen := [], recTimer := false, completedPaths := [] }

/-- Fold a scanner operation's outcome back into the system: install the new
context and, when the radio was successfully tuned, the new frequency. -/
def applyScan (s : SysState) (o : ScanOut) : SysState :=
  { s with scan := o.ctx, radioFreq := o.tuned.getD s.radioFreq }

/-- SDRService.ts `startRecording` (lines 102-148): refuses unless the SDR
runs, is a warn-and-return no-op while a recording is already in progress,
otherwise opens a writer on a file named from the radio's current frequency
and the wall clock, and — only outside scanning mode — arms the
recording-timeout timer. -/
def startRecording (s : SysState) (now : Timestamp) : SysState :=
  if !s.sdrRunning then s
  else if !s.recOpen.isEmpty then s
  else
    let sess : RecordingSession :=
      { path := createRecordingFileName s.radioFreq now, freqHz := s.radioFreq }
    let s1 := { s with recOpen := [sess] }
    if !s1.scan.st.isScanning then { s1 with recTimer := true } else s1

/-- SDRService.ts `finalizeRecording` (lines 183-211): a no-op without an
open writer; otherwise cancels the recording-timeout timer, closes the file
(`closeOk` is the environment's verdict on `writer.end()`; only a
successful close hands the path to `doneRecording`), and clears the session
state regardless. -/
def finalizeRecording (s : SysState) (closeOk : Bool) : SysState :=
  match s.recOpen with
  | [] => s
  | sess :: _ =>
    { s with
      recTimer := false, recOpen := [],
      completedPaths := if closeOk then s.completedPaths ++ [sess.path]
                        else s.completedPaths }

/-- SDRService.ts `writeAudioToRecording` (lines 153-178): no-op without an
open writer; a write failure triggers an immediate finalize; a successful
write restarts the recording-timeout timer only outside scanning mode. -/
def writeAudioToRecording (s : SysState) (writeOk closeOk : Bool) : SysState :=
  if s.recOpen.isEmpty then s
  else if !writeOk then finalizeRecording s closeOk
  else if !s.scan.st.isScanning then { s with recTimer := true } else s

/-- The recording branch of the `audioData` listener (SDRService.ts lines
377-391): only when recording is enabled and the frame is not squelched,
start a session if none is open, then write the payload. -/
def recordingBranch (s : SysState) (squelched writeOk closeOk : Bool)
    (now : Timestamp) : SysState :=
  if s.recEnabled && !squelched then
    let s1 := if s.recOpen.isEmpty then startRecording s now else s
    if !s1.recOpen.isEmpty then writeAudioToRecording s1 writeOk closeOk else s1
  else s

/-- The events the main process reacts to: a radio audio frame, the two
timer expiries, and the IPC handlers that touch scanner or recording state.
Boolean parameters are the environment's verdicts on the awaited tune, the
file write and the file close performed during the event. -/
inductive SysEvent where
  | frame (squelched tuneOk writeOk closeOk : Bool) (now : Timestamp)
  | unsquelchFire (tuneOk : Bool)
  | recTimeoutFire (closeOk : Bool)
  | scanStart (profileId : Nat) (frequencies : List ProfileFrequency) (tuneOk : Bool)
  | scanStop
  | scanMoveNext (tuneOk : Bool)
  | scanSetFreq (frequencyHz : Nat) (tuneOk : Bool)
  | sdrSetFreq (frequencyHz : Nat) (tuneOk closeOk : Bool)
  | recEnable
  | recDisable (closeOk : Bool)
  | sdrStart (frequencyHz : Nat)
  | sdrStop (closeOk : Bool)
deriving Repr, DecidableEq

/-- One step of the main process.  `setFrequency` throws when the SDR is not
running, so every scanner-side tune verdict is `tuneOk && s.sdrRunning`.
The `audioData` listener first notifies the scanner, then runs the
recording branch; `sdr:setFrequency` finalizes an open recording before
tuning; `scanner:stop`, `scanner:setFrequency` and the scan advances never
touch the recording state. -/
def sysStep (s : SysState) : SysEvent → SysState
  | .frame squelched tuneOk writeOk closeOk now =>
    let s1 := applyScan s (handleAudioData s.scan squelched (tuneOk && s.sdrRunning))
    recordingBranch s1 squelched writeOk closeOk now
  | .unsquelchFire tuneOk =>
    applyScan s (fireUnsquelchTimer s.scan (tuneOk && s.sdrRunning))
  | .recTimeoutFire closeOk =>
    if !s.recTimer then s else finalizeRecording { s with recTimer := false } closeOk
  | .scanStart profileId frequencies tuneOk =>
    applyScan s (startScan s.scan profileId frequencies (tuneOk && s.sdrRunning))
  | .scanStop => applyScan s (stopScan s.scan)
  | .scanMoveNext tuneOk =>
    applyScan s (moveToNextFrequency s.scan (tuneOk && s.sdrRunning))
  | .scanSetFreq frequencyHz tuneOk =>
    applyScan s (setFrequencyManually s.scan frequencyHz (tuneOk && s.sdrRunning))
  | .sdrSetFreq frequencyHz tuneOk closeOk =>
    if !s.sdrRunning then s
    else
      let s1 := if s.recOpen.isEmpty then s else finalizeRecording s closeOk
      if tuneOk then { s1 with radioFreq := frequencyHz } else s1
  | .recEnable => if s.sdrRunning then { s with recEnabled := true } else s
  | .recDisable closeOk =>
    let s1 := { s with recEnabled := false }
    if s1.recOpen.isEmpty then s1 else finalizeRecording s1 closeOk
  | .sdrStart frequencyHz =>
    if s.sdrRunning then s else { s with sdrRunning := true, radioFreq := frequencyHz }
  | .sdrStop closeOk =>
    if !s.sdrRunning then s
    else
      let s1 := if s.recOpen.isEmpty then s else finalizeRecording s closeOk
      { s1 with sdrRunning := false }

/-- Run the main process over a sequence of events from process start. -/
def sysRun (events : List SysEvent) : SysState := events.foldl sysStep sysState0

/-! ## Transcription queue (TranscriptionService in Settings.ts)

`transcriptionQueue` and `isProcessing` are module-level variables; the
worker loop is `processQueue`.  The asynchronous `transcribeFile` call is
modelled by a `complete` event delivered later by the environment, carrying
the success/failure verdict; the synchronous dequeue-and-mark-busy step that
both `queueTranscription` and the `finally` branch perform is `processQueue`
below. -/

/-- Queue state: pending file paths, the `isProcessing` flag, the job an
in-flight `transcribeFile` call was started for, and the results delivered
so far (path, success flag), in delivery order. -/
structure QState where
  queue : List String
  isProcessing : Bool
  running : Option String
  delivered : List (String × Bool)
deriving Repr, DecidableEq

/-- The initial (empty, idle) queue. -/
def qState0 : QState :=
  { queue := [], isProcessing := false, running := none, delivered := [] }

/-- Settings.ts `processQueue` (lines 366-384) up to its first await: return
if busy or empty, else shift the head, set `isProcessing`, and start
`transcribeFile` on it. -/
def processQueue (s : QState) : QState :=
  if s.isProcessing then s
  else
    match s.queue with
    | [] => s
    | job :: rest => { s with queue := rest, isProcessing := true, running := some job }

/-- Queue events: `queueTranscription(filePath)` (push then `processQueue()`),
and completion of the in-flight `transcribeFile` (resolve or reject the job,
clear `isProcessing`, then `processQueue()` again — the `finally` branch). -/
inductive QEvent where
  | enqueue (filePath : String)
  | complete (ok : Bool)
deriving Repr, DecidableEq

/-- One step of the queue's event semantics. -/
def qStep (s : QState) : QEvent → QState
  | .enqueue filePath => processQueue { s with queue := s.queue ++ [filePath] }
  | .complete ok =>
    match s.running with
    | none => s
    | some job =>
      processQueue { s with
        running := none, isProcessing := false,
        delivered := s.delivered ++ [(job, ok)] }

/-- Run the queue over a sequence of events from the idle state. -/
def qRun (events : List QEvent) : QState := events.foldl qStep qState0

/-- The file paths enqueued by a sequence of events, in order. -/
def enqueuedOf (events : List QEvent) : List String :=
  events.filterMap (fun e => match e with | .enqueue fp => some fp | _ => none)

/-! ## Concrete fixtures

Small concrete states used to evaluate the definitions at specific inputs:
a two-frequency profile (160 MHz / 161 MHz), a scanner parked on the first
entry in the middle of an unsquelch wait, and a system state with that
scanner plus an open recording named for 160 MHz. -/

/-- Profile entry for 160.000 MHz. -/
def exFreqA : ProfileFrequency :=
  { Id := 1, ProfileId := 1, FrequencyHz := 160000000, Channel := none, Enabled := true }

/-- Profile entry for 161.000 MHz. -/
def exFreqB : ProfileFrequency :=
  { Id := 2, ProfileId := 1, FrequencyHz := 161000000, Channel := none, Enabled := true }

/-- A (degenerate but schema-legal) profile entry for 0 Hz. -/
def exFreq0 : ProfileFrequency :=
  { Id := 3, ProfileId := 1, FrequencyHz := 0, Channel := none, Enabled := true }

/-- Scanning the two-frequency profile, parked on 160 MHz, active signal
seen, unsquelch-wait timer armed and waiting. -/
def exScanWaiting : ScanCtx :=
  { st := { isScanning := true, profileId := some 1, frequencies := [exFreqA, exFreqB],
            currentIndex := 0, currentFrequency := some exFreqA,
            hasReceivedActiveSignal := true, waitingForUnsquelch := true },
    unsquelchTimer := true }

/-- Held scanner whose remembered current frequency is the 0 Hz entry. -/
def exScanZero : ScanCtx :=
  { st := { isScanning := false, profileId := some 1, frequencies := [],
            currentIndex := 0, currentFrequency := some exFreq0,
            hasReceivedActiveSignal := false, waitingForUnsquelch := false },
    unsquelchTimer := false }

/-- The part_008 scanner state matching `exScanWaiting`. -/
def exStateB : ScannerStateB :=
  { isScanning := true, profileId := some 1, frequencies := [exFreqA, exFreqB],
    currentFrequency := some exFreqA,
    hasReceivedActiveSignal := true, waitingForUnsquelch := true }

/-- 2025-01-20 06:19:45, the spec's worked naming example. -/
def exStamp : Timestamp :=
  { year := 2025, month := 1, day := 20, hour := 6, minute := 19, second := 45 }

/-- SDR running and recording enabled: `exScanWaiting` plus an open
recording session whose file is named for 160 MHz. -/
def exSysRecording : SysState :=
  { scan := exScanWaiting, sdrRunning := true, radioFreq := 160000000,
    recEnabled := true,
    recOpen := [{ path := "160-000_01-20-2025-06-19-45.wav", freqHz := 160000000 }],
    recTimer := false, completedPaths := [] }

/-! ## Theorems -/

/-- C1.  The claim — every frequency-changing operation finalizes an open
recording first — fails on the code for the scan-advance and
scanner-manual-set paths, contradicting SDRService.ts's own comment that
"in scanning mode, the Scanner's unsquelchTimer will handle finalization":
from a scanning state with an open recording named for 160 MHz, (i) the
unsquelch-wait expiry re-tunes the radio to 161 MHz yet leaves the same
session open and completes nothing, (ii) the next non-squelched frame at
the new frequency is appended to that same old-frequency session rather
than a fresh one, and (iii) `scanner:setFrequency` likewise re-tunes
without finalizing. -/
theorem scanAdvance_leaves_recording_open :
    ((sysStep exSysRecording (SysEvent.unsquelchFire true)).radioFreq = 161000000 ∧
      (sysStep exSysRecording (SysEvent.unsquelchFire true)).recOpen = exSysRecording.recOpen ∧
      (sysStep exSysRecording (SysEvent.unsquelchFire true)).completedPaths = []) ∧
    ((sysStep (sysStep exSysRecording (SysEvent.unsquelchFire true))
        (SysEvent.frame false true true true exStamp)).recOpen = exSysRecording.recOpen) ∧
    ((sysStep exSysRecording (SysEvent.scanSetFreq 162550000 true)).radioFreq = 162550000 ∧
      (sysStep exSysRecording (SysEvent.scanSetFreq 162550000 true)).recOpen
        = exSysRecording.recOpen ∧
      (sysStep exSysRecording (SysEvent.scanSetFreq 162550000 true)).completedPaths = []) := by
  decide

/-- C2 counterexample.  `stopScan` does not trigger recording finalization:
stopping the scan from a state with an open recording leaves the session
open and completes nothing, so the claim's "triggers finalization of any
open recording before returning" is false on the code. -/
theorem stopScan_leaves_recording_open :
    (sysStep exSysRecording SysEvent.scanStop).recOpen ≠ [] ∧
    (sysStep exSysRecording SysEvent.scanStop).recOpen = exSysRecording.recOpen ∧
    (sysStep exSysRecording SysEvent.scanStop).completedPaths = [] := by
  decide

/-- C2 amended.  `stop()` cancels any pending unsquelch-wait timer, clears
`hasReceivedActiveSignal` and the waiting flag, preserves the current
frequency, frequency list and profile for a future start, and leaves the
scanning state — but it does not touch the recording lifecycle: an open
recording stays open across the scanning-to-held transition. -/
theorem stopScan_spec (s : SysState) :
    (sysStep s SysEvent.scanStop).scan.unsquelchTimer = false ∧
    (sysStep s SysEvent.scanStop).scan.st.hasReceivedActiveSignal = false ∧
    (sysStep s SysEvent.scanStop).scan.st.waitingForUnsquelch = false ∧
    (sysStep s SysEvent.scanStop).scan.st.isScanning = false ∧
    (sysStep s SysEvent.scanStop).scan.st.currentFrequency = s.scan.st.currentFrequency ∧
    (sysStep s SysEvent.scanStop).scan.st.currentIndex = s.scan.st.currentIndex ∧
    (sysStep s SysEvent.scanStop).scan.st.frequencies = s.scan.st.frequencies ∧
    (sysStep s SysEvent.scanStop).scan.st.profileId = s.scan.st.profileId ∧
    (sysStep s SysEvent.scanStop).recOpen = s.recOpen ∧
    (sysStep s SysEvent.scanStop).recTimer = s.recTimer ∧
    (sysStep s SysEvent.scanStop).completedPaths = s.completedPaths := by
  simp [sysStep, applyScan, stopScan]

/-- C2 witness: the amended stop behaviour at the concrete recording
state. -/
theorem stopScan_spec_witness :
    (sysStep exSysRecording SysEvent.scanStop).scan.st.isScanning = false ∧
    (sysStep exSysRecording SysEvent.scanStop).recOpen = exSysRecording.recOpen :=
  ⟨(stopScan_spec exSysRecording).2.2.2.1, (stopScan_spec exSysRecording).2.2.2.2.2.2.2.2.1⟩

/-- C6 counterexample.  `setFrequencyManually` does not cancel a pending
unsquelch-wait timer (it touches neither the timer nor the waiting flag),
so after a manual frequency change the timer started on the previous
frequency still fires and advances the scan away from the manually set
frequency — refuting "a timer scheduled for a previous frequency never
fires an advance after the controller has left that frequency". -/
theorem setFrequencyManually_stale_timer_advances :
    (setFrequencyManually exScanWaiting 162550000 true).ctx.unsquelchTimer = true ∧
    (setFrequencyManually exScanWaiting 162550000 true).ctx.st.waitingForUnsquelch = true ∧
    (fireUnsquelchTimer (setFrequencyManually exScanWaiting 162550000 true).ctx
        true).ctx.st.currentFrequency
      = some exFreqB ∧
    some exFreqB
      ≠ (setFrequencyManually exScanWaiting 162550000 true).ctx.st.currentFrequency := by
  decide

/-- C7 counterexample.  The start-index rule fails for a remembered current
frequency of 0 Hz: `startScan` finds the matching entry at index 0 of the
two-entry list, but the JS truthiness guard `if (currentFreqHz)` skips the
lookup, so scanning starts at index 0 instead of the entry after the
match. -/
theorem startScan_zero_frequency_no_resume :
    exScanZero.st.currentFrequency = some exFreq0 ∧
    [exFreq0, exFreqA].findIdx? (fun g => g.FrequencyHz = exFreq0.FrequencyHz) = some 0 ∧
    (startScan exScanZero 1 [exFreq0, exFreqA] true).ok = true ∧
    (startScan exScanZero 1 [exFreq0, exFreqA] true).ctx.st.currentIndex = 0 ∧
    (startScan exScanZero 1 [exFreq0, exFreqA] true).ctx.st.currentIndex ≠ (0 + 1) % 2 := by
  decide

/-- C8 counterexample.  A tuning failure during a scan advance does not
leave the scanner state unchanged: the part_008 `moveToNextFrequency`
advances `currentFrequency` and clears both per-frequency flags before the
failed `setFrequency`, and returns the failure with those mutations
retained. -/
theorem moveToNext_tuning_failure_mutates_state :
    (moveToNextFrequencyB exStateB false).2.1 = false ∧
    (moveToNextFrequencyB exStateB false).1.currentFrequency = some exFreqB ∧
    (moveToNextFrequencyB exStateB false).1.currentFrequency ≠ exStateB.currentFrequency ∧
    (moveToNextFrequencyB exStateB false).1.hasReceivedActiveSignal
      ≠ exStateB.hasReceivedActiveSignal := by
  decide

/-- C8 amended.  A tuning failure during a scan advance is surfaced as a
structured failure result, but the advance's state mutations are retained
(they are written before the awaited tune): the resulting scanner state is
exactly the one a successful advance would produce, with the next entry
current, `hasReceivedActiveSignal` and the waiting flag cleared.  This
holds both for the part_008 `moveToNextFrequency` and for the scan advance
driven through Scanner.ts `moveToNextFrequency`. -/
theorem scanAdvance_tuning_failure_spec (st : ScannerStateB) (c : ScanCtx) :
    (st.frequencies ≠ [] →
      (moveToNextFrequencyB st false).2.1 = false ∧
      (moveToNextFrequencyB st false).2.2 = some "SDR is not running" ∧
      (moveToNextFrequencyB st false).1 = (moveToNextFrequencyB st true).1 ∧
      (moveToNextFrequencyB st false).1.hasReceivedActiveSignal = false ∧
      (moveToNextFrequencyB st false).1.waitingForUnsquelch = false) ∧
    (c.st.isScanning = true → c.st.frequencies ≠ [] →
      (moveToNextFrequency c false).ok = false ∧
      (moveToNextFrequency c false).ctx = (moveToNextFrequency c true).ctx ∧
      (moveToNextFrequency c false).ctx.st.currentIndex
        = (c.st.currentIndex + 1) % c.st.frequencies.length) := by
  constructor
  · intro h
    simp only [moveToNextFrequencyB, List.length_eq_zero, h, if_false]
    simp
  · intro hs h
    simp only [moveToNextFrequency, hs, List.length_eq_zero, h]
    simp

/-- C8 witness: the amended theorem evaluated on the concrete two-frequency
states. -/
theorem scanAdvance_tuning_failure_spec_witness :
    (moveToNextFrequencyB exStateB false).1 = (moveToNextFrequencyB exStateB true).1 ∧
    (moveToNextFrequency exScanWaiting false).ctx.st.currentIndex = 1 :=
  ⟨((scanAdvance_tuning_failure_spec exStateB exScanWaiting).1 (by decide)).2.2.1,
   by
    have h := ((scanAdvance_tuning_failure_spec exStateB exScanWaiting).2 (by decide)
      (by decide)).2.2
    simpa using h⟩

/-- C10.  `startScan` is not atomic on tuning failure: the new scanner
state (scanning flag, profile, frequency list, computed start index) is
installed before the receiver is tuned, so with a failing tune the call
returns a failure result while the scanner is left reporting that it is
scanning the new profile — the very state a successful start would have
produced. -/
theorem startScan_not_atomic_on_tuning_failure (c : ScanCtx) (profileId : Nat)
    (frequencies : List ProfileFrequency) (h : frequencies ≠ []) :
    (startScan c profileId frequencies false).ok = false ∧
    (startScan c profileId frequencies false).error = some "SDR is not running" ∧
    (startScan c profileId frequencies false).ctx.st.isScanning = true ∧
    (startScan c profileId frequencies false).ctx.st.profileId = some profileId ∧
    (startScan c profileId frequencies false).ctx.st.frequencies = frequencies ∧
    (startScan c profileId frequencies false).ctx = (startScan c profileId frequencies true).ctx := by
  simp only [startScan, List.length_eq_zero, h]
  simp

/-- C10 witness: a failing start at the concrete held scanner still
installs the new profile as scanning. -/
theorem startScan_not_atomic_on_tuning_failure_witness :
    (startScan exScanZero 1 [exFreqA, exFreqB] false).ok = false ∧
    (startScan exScanZero 1 [exFreqA, exFreqB] false).ctx.st.isScanning = true :=
  ⟨(startScan_not_atomic_on_tuning_failure exScanZero 1 [exFreqA, exFreqB] (by decide)).1,
   (startScan_not_atomic_on_tuning_failure exScanZero 1 [exFreqA, exFreqB] (by decide)).2.2.1⟩

/-- C6 amended.  Leaving a scan state neutralizes its in-flight unsquelch
timer for `stopScan` (which cancels it outright, so an expiry afterwards is
a pure no-op) and for `moveToNextFrequency` (which advances with
wrap-around, resets `hasReceivedActiveSignal`, clears the waiting flag, and
thereby turns a still-armed timer's expiry into a no-op on the scanner
state); the part_008 `moveToNextFrequency` fails with
`'No frequencies loaded'` when no profile is loaded.  `setFrequencyManually`
however touches neither the timer nor the waiting flag, so a pending timer
survives a manual frequency change (the refuted part of the claim). -/
theorem leaving_state_cancels_timers (c : ScanCtx) (f : Nat) (t t' : Bool) :
    ((stopScan c).ctx.unsquelchTimer = false ∧
      (stopScan c).ctx.st.waitingForUnsquelch = false ∧
      fireUnsquelchTimer (stopScan c).ctx t = scanNoop (stopScan c).ctx) ∧
    (c.st.isScanning = true → c.st.frequencies ≠ [] →
      (moveToNextFrequency c t).ctx.st.currentIndex
        = (c.st.currentIndex + 1) % c.st.frequencies.length ∧
      (moveToNextFrequency c t).ctx.st.hasReceivedActiveSignal = false ∧
      (moveToNextFrequency c t).ctx.st.waitingForUnsquelch = false ∧
      (fireUnsquelchTimer (moveToNextFrequency c t).ctx t').ctx.st
        = (moveToNextFrequency c t).ctx.st) ∧
    (∀ stB : ScannerStateB, stB.frequencies = [] →
      moveToNextFrequencyB stB t = (stB, false, some "No frequencies loaded")) ∧
    ((setFrequencyManually c f true).ctx.unsquelchTimer = c.unsquelchTimer ∧
      (setFrequencyManually c f true).ctx.st.waitingForUnsquelch
        = c.st.waitingForUnsquelch) := by
  refine ⟨⟨rfl, rfl, ?_⟩, ?_, ?_, ?_⟩
  · simp [fireUnsquelchTimer, stopScan]
  · intro hs h
    obtain ⟨cst, ut⟩ := c
    simp only at hs h
    cases t <;> cases ut <;>
      · simp only [moveToNextFrequency, hs, List.length_eq_zero, h]
        simp [fireUnsquelchTimer, scanNoop]
  · intro stB hB
    simp [moveToNextFrequencyB, hB]
  · simp [setFrequencyManually]

/-- C6 witness: the amended theorem evaluated on the waiting scanner. -/
theorem leaving_state_cancels_timers_witness :
    (moveToNextFrequency exScanWaiting true).ctx.st.currentIndex = 1 ∧
    moveToNextFrequencyB { exStateB with frequencies := [] } true
      = ({ exStateB with frequencies := [] }, false, some "No frequencies loaded") :=
  ⟨by
    have h := ((leaving_state_cancels_timers exScanWaiting 0 true true).2.1
      (by decide) (by decide)).1
    simpa using h,
   (leaving_state_cancels_timers exScanWaiting 0 true true).2.2.1
     { exStateB with frequencies := [] } rfl⟩

/-- C5.  While scanning, `handleAudioData` follows the per-frame state
machine: a squelched frame with no active signal ever seen advances
immediately (index, current entry, flags); a squelched frame after an
active signal arms the unsquelch-wait timer exactly when none is running
and is a no-op otherwise; the timer's expiry leaves the scanner state
untouched unless still scanning and still waiting, and advances when both
hold; a non-squelched frame latches `hasReceivedActiveSignal`, stays on the
current frequency, cancels a running wait, and emits the renderer
notification exactly on the false-to-true transition. -/
theorem handleSignal_state_machine (c : ScanCtx) (tuneOk : Bool) :
    (c.st.isScanning = true → c.st.frequencies ≠ [] →
      c.st.hasReceivedActiveSignal = false →
      (handleAudioData c true tuneOk).ctx.st.currentIndex
        = (c.st.currentIndex + 1) % c.st.frequencies.length ∧
      (handleAudioData c true tuneOk).ctx.st.currentFrequency
        = c.st.frequencies[(c.st.currentIndex + 1) % c.st.frequencies.length]? ∧
      (handleAudioData c true tuneOk).ctx.st.hasReceivedActiveSignal = false) ∧
    (c.st.isScanning = true → c.st.hasReceivedActiveSignal = true →
      c.st.waitingForUnsquelch = false →
      (handleAudioData c true tuneOk).ctx
        = { st := { c.st with waitingForUnsquelch := true }, unsquelchTimer := true }) ∧
    (c.st.isScanning = true → c.st.hasReceivedActiveSignal = true →
      c.st.waitingForUnsquelch = true →
      (handleAudioData c true tuneOk).ctx = c) ∧
    ((c.st.isScanning = false ∨ c.st.waitingForUnsquelch = false) →
      (fireUnsquelchTimer c tuneOk).ctx.st = c.st) ∧
    (c.st.isScanning = true → c.st.waitingForUnsquelch = true →
      c.unsquelchTimer = true → c.st.frequencies ≠ [] →
      (fireUnsquelchTimer c tuneOk).ctx.st.currentIndex
        = (c.st.currentIndex + 1) % c.st.frequencies.length) ∧
    (c.st.isScanning = true →
      (handleAudioData c false tuneOk).ctx.st.hasReceivedActiveSignal = true ∧
      (handleAudioData c false tuneOk).ctx.st.currentIndex = c.st.currentIndex ∧
      (handleAudioData c false tuneOk).ctx.st.currentFrequency = c.st.currentFrequency ∧
      (handleAudioData c false tuneOk).ctx.st.waitingForUnsquelch = false ∧
      (c.st.waitingForUnsquelch = true →
        (handleAudioData c false tuneOk).ctx.unsquelchTimer = false) ∧
      (handleAudioData c false tuneOk).notifs
        = (if c.st.hasReceivedActiveSignal = true then []
           else [Notif.freqChange (c.st.currentFrequency.map (·.FrequencyHz)) true])) := by
  obtain ⟨⟨sc, pid, fr, ci, cf, ha, wu⟩, ut⟩ := c
  refine ⟨?_, ?_, ?_, ?_, ?_, ?_⟩
  · intro hs h hr
    simp only at hs hr
    subst hs hr
    simp only [handleAudioData, moveToNextFrequency, List.length_eq_zero]
    simp only at h
    cases tuneOk <;> simp [h]
  · intro hs hr hw
    simp only at hs hr hw
    subst hs hr hw
    simp [handleAudioData]
  · intro hs hr hw
    simp only at hs hr hw
    subst hs hr hw
    simp [handleAudioData, scanNoop]
  · intro hd
    simp only at hd
    rcases hd with hd | hd <;> subst hd <;>
      cases ut <;> simp [fireUnsquelchTimer, scanNoop, moveToNextFrequency]
  · intro hs hw ht h
    simp only at hs hw ht h
    subst hs hw ht
    simp only [fireUnsquelchTimer, moveToNextFrequency, List.length_eq_zero]
    cases tuneOk <;> simp [h]
  · intro hs
    simp only at hs
    subst hs
    cases ha <;> cases wu <;> simp [handleAudioData, scanNoop]

/-- C5 witness: the state machine evaluated on the waiting scanner (idle
squelched frame) and on a fresh seeking scanner (immediate advance). -/
theorem handleSignal_state_machine_witness :
    (handleAudioData exScanWaiting true true).ctx = exScanWaiting ∧
    (handleAudioData
        { st := { exScanWaiting.st with hasReceivedActiveSignal := false },
          unsquelchTimer := false } true true).ctx.st.currentIndex = 1 :=
  ⟨(handleSignal_state_machine exScanWaiting true).2.2.1 rfl rfl rfl,
   by
    have h := (handleSignal_state_machine
      { st := { exScanWaiting.st with hasReceivedActiveSignal := false },
        unsquelchTimer := false } true).1 rfl (by decide) rfl
    simpa using h.1⟩

/-- Scanner operations never touch the recording state. -/
theorem applyScan_recOpen (s : SysState) (o : ScanOut) : (applyScan s o).recOpen = s.recOpen :=
  rfl

/-- `finalizeRecording` always leaves the session list empty (it is a no-op
precisely when the list already is). -/
theorem finalizeRecording_recOpen (s : SysState) (closeOk : Bool) (h : s.recOpen = []) :
    finalizeRecording s closeOk = s := by
  simp [finalizeRecording, h]

/-- After `finalizeRecording` at most one (in fact zero or the untouched
empty list of) sessions remain. -/
theorem finalizeRecording_recOpen_nil (s : SysState) (closeOk : Bool) :
    (finalizeRecording s closeOk).recOpen = [] ∨ (finalizeRecording s closeOk).recOpen = s.recOpen := by
  cases h : s.recOpen <;> simp [finalizeRecording, h]

/-- `startRecording` preserves the session bound: it creates a session only
from the empty state. -/
theorem startRecording_recOpen_le (s : SysState) (now : Timestamp)
    (h : s.recOpen.length ≤ 1) : (startRecording s now).recOpen.length ≤ 1 := by
  simp only [startRecording]
  split
  · exact h
  · split
    · exact h
    · split <;> simp

/-- `writeAudioToRecording` preserves the session bound. -/
theorem writeAudio_recOpen_le (s : SysState) (writeOk closeOk : Bool)
    (h : s.recOpen.length ≤ 1) :
    (writeAudioToRecording s writeOk closeOk).recOpen.length ≤ 1 := by
  simp only [writeAudioToRecording]
  split
  · exact h
  · split
    · rcases finalizeRecording_recOpen_nil s closeOk with h' | h' <;> simp [h']
      exact h
    · split <;> simpa

/-- The recording branch of the audio listener preserves the session bound. -/
theorem recordingBranch_recOpen_le (s : SysState) (squelched writeOk closeOk : Bool)
    (now : Timestamp) (h : s.recOpen.length ≤ 1) :
    (recordingBranch s squelched writeOk closeOk now).recOpen.length ≤ 1 := by
  simp only [recordingBranch]
  split
  · split
    · split
      · exact writeAudio_recOpen_le _ _ _ (startRecording_recOpen_le _ _ h)
      · exact startRecording_recOpen_le _ _ h
    · split
      · exact writeAudio_recOpen_le _ _ _ h
      · exact h
  · exact h

/-- Every event of the main process preserves the session bound. -/
theorem sysStep_recOpen_le (s : SysState) (e : SysEvent) (h : s.recOpen.length ≤ 1) :
    (sysStep s e).recOpen.length ≤ 1 := by
  cases e with
  | frame squelched tuneOk writeOk closeOk now =>
    exact recordingBranch_recOpen_le _ _ _ _ _ (by simpa [applyScan] using h)
  | unsquelchFire tuneOk => simpa [sysStep, applyScan] using h
  | recTimeoutFire closeOk =>
    simp only [sysStep]
    split
    · exact h
    · rcases finalizeRecording_recOpen_nil { s with recTimer := false } closeOk with h' | h' <;>
        simp [h']
      exact h
  | scanStart profileId frequencies tuneOk => simpa [sysStep, applyScan] using h
  | scanStop => simpa [sysStep, applyScan] using h
  | scanMoveNext tuneOk => simpa [sysStep, applyScan] using h
  | scanSetFreq frequencyHz tuneOk => simpa [sysStep, applyScan] using h
  | sdrSetFreq frequencyHz tuneOk closeOk =>
    simp only [sysStep]
    split
    · exact h
    · rcases finalizeRecording_recOpen_nil s closeOk with h' | h' <;> split <;> split <;>
        simp_all
  | recEnable =>
    simp only [sysStep]
    split <;> simpa
  | recDisable closeOk =>
    simp only [sysStep]
    split
    · simpa
    · rcases finalizeRecording_recOpen_nil { s with recEnabled := false } closeOk with h' | h' <;>
        simp [h']
      exact h
  | sdrStart frequencyHz =>
    simp only [sysStep]
    split <;> simpa
  | sdrStop closeOk =>
    simp only [sysStep]
    split
    · exact h
    · rcases finalizeRecording_recOpen_nil s closeOk with h' | h' <;> split <;> simp [h'] <;>
        exact h

/-- The session bound holds along any event sequence from any bounded
state. -/
theorem sysFold_recOpen_le (events : List SysEvent) :
    ∀ s : SysState, s.recOpen.length ≤ 1 →
      (events.foldl sysStep s).recOpen.length ≤ 1 := by
  induction events with
  | nil => intro s h; simpa
  | cons e rest ih =>
    intro s h
    exact ih (sysStep s e) (sysStep_recOpen_le s e h)

/-- C3.  At most one recording session is ever open: starting a recording
while one is open is a no-op (the guard in `startRecording`), every event
preserves the bound, and along every event sequence from process start at
most one session exists. -/
theorem single_open_recording_invariant :
    (∀ (s : SysState) (now : Timestamp), s.recOpen ≠ [] → startRecording s now = s) ∧
    (∀ (s : SysState) (e : SysEvent), s.recOpen.length ≤ 1 →
      (sysStep s e).recOpen.length ≤ 1) ∧
    (∀ events : List SysEvent, (sysRun events).recOpen.length ≤ 1) := by
  refine ⟨?_, sysStep_recOpen_le, ?_⟩
  · intro s now h
    simp only [startRecording]
    split
    · rfl
    · split
      · rfl
      · simp_all [List.isEmpty_iff]
  · intro events
    exact sysFold_recOpen_le events sysState0 (by simp [sysState0])

/-- C3 witness: the no-op guard at the concrete state with an open session,
and the invariant along a concrete run that opens a recording. -/
theorem single_open_recording_invariant_witness :
    startRecording exSysRecording exStamp = exSysRecording ∧
    (sysRun [SysEvent.sdrStart 160000000, SysEvent.recEnable,
      SysEvent.frame false true true true exStamp,
      SysEvent.frame false true true true exStamp]).recOpen.length ≤ 1 :=
  ⟨single_open_recording_invariant.1 exSysRecording exStamp (by decide),
   single_open_recording_invariant.2.2 _⟩

/-- Completing the in-flight job delivers exactly its result and hands the
worker to the head of the pending queue (if any), regardless of success or
failure. -/
theorem qStep_complete_spec (s : QState) (job : String) (ok : Bool)
    (h : s.running = some job) :
    (qStep s (QEvent.complete ok)).delivered = s.delivered ++ [(job, ok)] ∧
    (qStep s (QEvent.complete ok)).running = s.queue.head? := by
  simp only [qStep, h, processQueue]
  cases hq : s.queue <;> simp [hq]

/-- One queue event preserves the busy/running agreement, the
idle-implies-empty property, and the job accounting equation. -/
theorem qStep_accounting (s : QState) (e : QEvent)
    (h1 : s.isProcessing = s.running.isSome)
    (h2 : s.isProcessing = false → s.queue = []) :
    (qStep s e).isProcessing = (qStep s e).running.isSome ∧
    ((qStep s e).isProcessing = false → (qStep s e).queue = []) ∧
    (qStep s e).delivered.map Prod.fst ++ (qStep s e).running.toList ++ (qStep s e).queue
      = s.delivered.map Prod.fst ++ s.running.toList ++ s.queue ++ enqueuedOf [e] := by
  cases e with
  | enqueue fp =>
    cases hp : s.isProcessing with
    | true => simp [qStep, processQueue, hp, enqueuedOf, ← h1]
    | false =>
      have hr : s.running = none := by
        cases hrr : s.running <;> simp [hrr, hp] at h1 ⊢
      have hq : s.queue = [] := h2 hp
      simp [qStep, processQueue, hp, hr, hq, enqueuedOf]
  | complete ok =>
    cases hr : s.running with
    | none =>
      have hp : s.isProcessing = false := by simp [h1, hr]
      simp [qStep, hr, hp, h2 hp, enqueuedOf]
    | some job =>
      simp only [qStep, hr, processQueue]
      cases hq : s.queue <;> simp [hq, enqueuedOf]

/-- The queue accounting holds along any event sequence. -/
theorem qFold_accounting (events : List QEvent) :
    ∀ s : QState, s.isProcessing = s.running.isSome → (s.isProcessing = false → s.queue = []) →
      (events.foldl qStep s).isProcessing = (events.foldl qStep s).running.isSome ∧
      ((events.foldl qStep s).isProcessing = false → (events.foldl qStep s).queue = []) ∧
      (events.foldl qStep s).delivered.map Prod.fst
          ++ (events.foldl qStep s).running.toList ++ (events.foldl qStep s).queue
        = s.delivered.map Prod.fst ++ s.running.toList ++ s.queue ++ enqueuedOf events := by
  induction events with
  | nil =>
    intro s h1 h2
    refine ⟨h1, h2, by simp [enqueuedOf]⟩
  | cons e rest ih =>
    intro s h1 h2
    obtain ⟨g1, g2, g3⟩ := qStep_accounting s e h1 h2
    obtain ⟨k1, k2, k3⟩ := ih (qStep s e) g1 g2
    refine ⟨k1, k2, ?_⟩
    rw [List.foldl_cons, k3, g3]
    cases e <;> simp [enqueuedOf]

/-- C4.  The transcription queue is strictly serial FIFO: after any event
sequence the delivered results (in order), the in-flight job and the
pending queue partition the enqueued paths in enqueue order — so jobs start
in FIFO order, each is completed before a later one starts, and each
result is delivered exactly once; `isProcessing` agrees with the existence
of an in-flight job (at most one transcription runs at a time); and
completing the in-flight job — successfully or not — delivers exactly its
result and immediately hands the worker to the next queued job, so a
failure blocks nothing. -/
theorem transcriptionQueue_serial_fifo (events : List QEvent) :
    ((qRun events).delivered.map Prod.fst ++ (qRun events).running.toList
        ++ (qRun events).queue = enqueuedOf events) ∧
    (qRun events).isProcessing = (qRun events).running.isSome ∧
    (∀ (job : String) (ok : Bool), (qRun events).running = some job →
      (qStep (qRun events) (QEvent.complete ok)).delivered
        = (qRun events).delivered ++ [(job, ok)] ∧
      (qStep (qRun events) (QEvent.complete ok)).running = (qRun events).queue.head?) := by
  obtain ⟨h1, _, h3⟩ := qFold_accounting events qState0 rfl (fun _ => rfl)
  refine ⟨by simpa [qRun, qState0] using h3, by simpa [qRun] using h1, ?_⟩
  intro job ok h
  exact qStep_complete_spec _ job ok h

/-- C4 witness: three jobs enqueued back to back; the partition equation at
that point, and completion of the in-flight head job (with a failure)
starting the second job. -/
theorem transcriptionQueue_serial_fifo_witness :
    ((qRun [QEvent.enqueue "a", QEvent.enqueue "b", QEvent.enqueue "c"]).delivered.map Prod.fst
        ++ (qRun [QEvent.enqueue "a", QEvent.enqueue "b", QEvent.enqueue "c"]).running.toList
        ++ (qRun [QEvent.enqueue "a", QEvent.enqueue "b", QEvent.enqueue "c"]).queue
      = ["a", "b", "c"]) ∧
    (qStep (qRun [QEvent.enqueue "a", QEvent.enqueue "b", QEvent.enqueue "c"])
        (QEvent.complete false)).running = some "b" := by
  have h := transcriptionQueue_serial_fifo
    [QEvent.enqueue "a", QEvent.enqueue "b", QEvent.enqueue "c"]
  refine ⟨?_, ?_⟩
  · rw [h.1]; decide
  · have h2 := (h.2.2 "a" false (by decide)).2
    rw [h2]; decide

/-- C7 amended.  `start(profileId)` works on the profile's enabled
frequencies in ascending order (the repository query is an order-preserving
sort of the enabled rows); with an empty enabled list it fails with the
`No enabled frequencies in profile` message leaving the scan not started;
otherwise it starts at the entry after the first match of the previous
current frequency (wrapping), at index 0 when there is no previous current
frequency, no match, or — the amendment — the remembered frequency is 0 Hz
(the JS truthiness guard `if (currentFreqHz)` skips the lookup); and it
resets `hasReceivedActiveSignal`, enters the scanning state, and on a
successful tune reports success with the radio tuned to the chosen
entry. -/
theorem startScan_spec (rows : List ProfileFrequency) (profileId : Nat) (c : ScanCtx)
    (tuneOk : Bool) :
    ((getEnabledByProfileId rows profileId).Pairwise
        (fun a b => a.FrequencyHz ≤ b.FrequencyHz) ∧
      (getEnabledByProfileId rows profileId).Perm
        (rows.filter (fun r => r.ProfileId = profileId && r.Enabled))) ∧
    (getEnabledByProfileId rows profileId = [] →
      (startScan c profileId (getEnabledByProfileId rows profileId) tuneOk).ok = false ∧
      (startScan c profileId (getEnabledByProfileId rows profileId) tuneOk).error
        = some "No enabled frequencies in profile" ∧
      (startScan c profileId (getEnabledByProfileId rows profileId) tuneOk).ctx.st.isScanning
        = false) ∧
    (∀ freqs : List ProfileFrequency, freqs ≠ [] →
      (∀ f i, c.st.currentFrequency = some f → f.FrequencyHz ≠ 0 →
        freqs.findIdx? (fun g => g.FrequencyHz = f.FrequencyHz) = some i →
        (startScan c profileId freqs tuneOk).ctx.st.currentIndex = (i + 1) % freqs.length) ∧
      (c.st.currentFrequency = none →
        (startScan c profileId freqs tuneOk).ctx.st.currentIndex = 0) ∧
      (∀ f, c.st.currentFrequency = some f →
        freqs.findIdx? (fun g => g.FrequencyHz = f.FrequencyHz) = none →
        (startScan c profileId freqs tuneOk).ctx.st.currentIndex = 0) ∧
      (∀ f, c.st.currentFrequency = some f → f.FrequencyHz = 0 →
        (startScan c profileId freqs tuneOk).ctx.st.currentIndex = 0) ∧
      ((startScan c profileId freqs tuneOk).ctx.st.isScanning = true ∧
        (startScan c profileId freqs tuneOk).ctx.st.hasReceivedActiveSignal = false ∧
        (startScan c profileId freqs tuneOk).ctx.st.currentFrequency
          = freqs[(startScan c profileId freqs tuneOk).ctx.st.currentIndex]? ∧
        (tuneOk = true →
          (startScan c profileId freqs tuneOk).ok = true ∧
          (startScan c profileId freqs tuneOk).tuned
            = (startScan c profileId freqs tuneOk).ctx.st.currentFrequency.map
                (·.FrequencyHz)))) := by
  have hne : ∀ freqs : List ProfileFrequency, freqs ≠ [] → ¬ freqs.length = 0 := by
    intro freqs h
    simpa [List.length_eq_zero] using h
  have htrans : ∀ a b cc : ProfileFrequency,
      decide (a.FrequencyHz ≤ b.FrequencyHz) = true →
      decide (b.FrequencyHz ≤ cc.FrequencyHz) = true →
      decide (a.FrequencyHz ≤ cc.FrequencyHz) = true := by
    intro a b cc hab hbc
    simp only [decide_eq_true_eq] at hab hbc ⊢
    omega
  have htotal : ∀ a b : ProfileFrequency,
      (decide (a.FrequencyHz ≤ b.FrequencyHz)
        || decide (b.FrequencyHz ≤ a.FrequencyHz)) = true := by
    intro a b
    simp only [Bool.or_eq_true, decide_eq_true_eq]
    omega
  refine ⟨⟨?_, ?_⟩, ?_, ?_⟩
  · have h : (getEnabledByProfileId rows profileId).Pairwise
        (fun a b => decide (a.FrequencyHz ≤ b.FrequencyHz) = true) := by
      unfold getEnabledByProfileId
      exact List.sorted_mergeSort htrans htotal
        (rows.filter (fun r => r.ProfileId = profileId && r.Enabled))
    refine List.Pairwise.imp ?_ h
    intro a b hab
    simpa using hab
  · exact List.mergeSort_perm _ _
  · intro h
    rw [h]
    refine ⟨by simp [startScan], by simp [startScan], ?_⟩
    simp only [startScan, List.length_nil]
    split
    · split <;> simp_all [stopScan]
    · simp_all
  · intro freqs h
    obtain ⟨⟨sc, pid0, fr, ci, cf, ha, wu⟩, ut⟩ := c
    have hlen := hne freqs h
    refine ⟨?_, ?_, ?_, ?_, ?_⟩
    · intro f i hf h0 hidx
      simp only at hf
      subst hf
      cases sc <;> cases tuneOk <;> simp [startScan, stopScan, hlen, h0, hidx]
    · intro hf
      simp only at hf
      subst hf
      cases sc <;> cases tuneOk <;> simp [startScan, stopScan, hlen]
    · intro f hf hidx
      simp only at hf
      subst hf
      cases sc <;> cases tuneOk <;> by_cases h0 : f.FrequencyHz = 0 <;>
        simp [startScan, stopScan, hlen, h0, hidx]
    · intro f hf h0
      simp only at hf
      subst hf
      cases sc <;> cases tuneOk <;> simp [startScan, stopScan, hlen, h0]
    · refine ⟨?_, ?_, ?_, ?_⟩ <;>
        cases sc <;> cases tuneOk <;> simp [startScan, stopScan, hlen]

/-- C7 witness: resuming after a nonzero match picks the entry after it. -/
theorem startScan_spec_witness :
    (startScan exScanWaiting 1 [exFreqA, exFreqB] true).ctx.st.currentIndex = (0 + 1) % 2 ∧
    (startScan exScanWaiting 1 [exFreqA, exFreqB] true).ctx.st.isScanning = true :=
  ⟨((startScan_spec [] 1 exScanWaiting true).2.2 [exFreqA, exFreqB] (by decide)).1
      exFreqA 0 rfl (by decide) (by decide),
   (((startScan_spec [] 1 exScanWaiting true).2.2 [exFreqA, exFreqB] (by decide)).2.2.2.2).1⟩

/-- A digit character's code point, for digits 0-9. -/
theorem digitChar_toNat (d : Nat) (h : d < 10) : (digitChar d).toNat = 48 + d := by
  interval_cases d <;> decide

/-- Digit characters lie in the ASCII digit range. -/
theorem digitChar_range (d : Nat) (h : d < 10) :
    48 ≤ (digitChar d).toNat ∧ (digitChar d).toNat ≤ 57 := by
  rw [digitChar_toNat d h]
  omega

/-- The fuel argument of `natDigitsAux` is irrelevant once sufficient. -/
theorem natDigitsAux_congr :
    ∀ fuel₁ fuel₂ n : Nat, n < fuel₁ → n < fuel₂ →
      natDigitsAux fuel₁ n = natDigitsAux fuel₂ n := by
  intro fuel₁
  induction fuel₁ with
  | zero => intro fuel₂ n h₁; omega
  | succ f ih =>
    intro fuel₂ n h₁ h₂
    cases fuel₂ with
    | zero => omega
    | succ g =>
      simp only [natDigitsAux]
      by_cases h : n < 10
      · simp [h]
      · have hd : n / 10 < n := Nat.div_lt_self (by omega) (by omega)
        simp only [h, if_false]
        rw [ih g (n / 10) (by omega) (by omega)]

/-- The defining recursion of `natDigits`. -/
theorem natDigits_eq (n : Nat) :
    natDigits n = if n < 10 then [digitChar n]
                  else natDigits (n / 10) ++ [digitChar (n % 10)] := by
  show natDigitsAux (n + 1) n = _
  simp only [natDigitsAux]
  by_cases h : n < 10
  · simp [h]
  · have hd : n / 10 < n := Nat.div_lt_self (by omega) (by omega)
    simp only [h, if_false]
    rw [natDigitsAux_congr n (n / 10 + 1) (n / 10) (by omega) (by omega)]
    rfl

/-- Every character of a rendered number is an ASCII digit. -/
theorem natDigits_range (n : Nat) :
    ∀ c ∈ natDigits n, 48 ≤ c.toNat ∧ c.toNat ≤ 57 := by
  induction n using Nat.strong_induction_on with
  | _ n ih =>
    intro c hc
    rw [natDigits_eq] at hc
    by_cases h : n < 10
    · simp only [h, if_true, List.mem_singleton] at hc
      subst hc
      exact digitChar_range n h
    · simp only [h, if_false, List.mem_append, List.mem_singleton] at hc
      rcases hc with hc | hc
      · exact ih (n / 10) (Nat.div_lt_self (by omega) (by omega)) c hc
      · subst hc
        exact digitChar_range (n % 10) (Nat.mod_lt _ (by omega))

/-- Characters outside the digit range never occur in a rendered number. -/
theorem not_mem_natDigits (c : Char) (hc : c.toNat < 48 ∨ 57 < c.toNat) (n : Nat) :
    c ∉ natDigits n := by
  intro h
  have := natDigits_range n c h
  omega

/-- Every character of the zero-padded renderings is an ASCII digit. -/
theorem pad_range :
    ∀ n : Nat, (∀ c ∈ pad2 n, 48 ≤ c.toNat ∧ c.toNat ≤ 57) ∧
      (∀ c ∈ pad3 n, 48 ≤ c.toNat ∧ c.toNat ≤ 57) ∧
      (∀ c ∈ pad4 n, 48 ≤ c.toNat ∧ c.toNat ≤ 57) := by
  intro n
  refine ⟨?_, ?_, ?_⟩ <;>
    · intro c hc
      simp only [pad2, pad3, pad4, List.mem_append] at hc
      rcases hc with hc | hc
      · split at hc <;> try split at hc
        all_goals simp_all
      · exact natDigits_range n c hc

/-- Folding decimal digits from a nonzero accumulator. -/
theorem parseDigits_foldl (cs : List Char) :
    ∀ acc : Nat,
      cs.foldl (fun a c => a * 10 + (c.toNat - 48)) acc
        = acc * 10 ^ cs.length + parseDigits cs := by
  induction cs with
  | nil => intro acc; simp [parseDigits]
  | cons c t ih =>
    intro acc
    simp only [List.foldl_cons, List.length_cons, parseDigits]
    rw [ih (acc * 10 + (c.toNat - 48)), ih (0 * 10 + (c.toNat - 48))]
    ring

/-- Digit folding distributes over append. -/
theorem parseDigits_append (a b : List Char) :
    parseDigits (a ++ b) = parseDigits a * 10 ^ b.length + parseDigits b := by
  simp only [parseDigits, List.foldl_append]
  exact parseDigits_foldl b _

/-- Parsing inverts rendering. -/
theorem parseDigits_natDigits (n : Nat) : parseDigits (natDigits n) = n := by
  induction n using Nat.strong_induction_on with
  | _ n ih =>
    rw [natDigits_eq]
    by_cases h : n < 10
    · simp only [h, if_true, parseDigits, List.foldl_cons, List.foldl_nil]
      rw [digitChar_toNat n h]
      omega
    · simp only [h, if_false]
      rw [parseDigits_append, ih (n / 10) (Nat.div_lt_self (by omega) (by omega))]
      simp only [List.length_singleton, parseDigits, List.foldl_cons, List.foldl_nil]
      rw [digitChar_toNat (n % 10) (Nat.mod_lt _ (by omega))]
      omega

/-- Parsing inverts the zero-padded renderings. -/
theorem parseDigits_pads (n : Nat) :
    parseDigits (pad2 n) = n ∧ parseDigits (pad3 n) = n ∧ parseDigits (pad4 n) = n := by
  have zc : ∀ cs : List Char, parseDigits ('0' :: cs) = parseDigits cs := fun cs => rfl
  refine ⟨?_, ?_, ?_⟩ <;>
    · simp only [pad2, pad3, pad4]
      split <;> try split
      all_goals try split
      all_goals simp [zc, parseDigits_natDigits]

/-- Digit-count of a rendered number below 1000. -/
theorem natDigits_length (n : Nat) :
    (n < 10 → (natDigits n).length = 1) ∧
    (10 ≤ n → n < 100 → (natDigits n).length = 2) ∧
    (100 ≤ n → n < 1000 → (natDigits n).length = 3) := by
  refine ⟨?_, ?_, ?_⟩
  · intro h
    rw [natDigits_eq]
    simp [h]
  · intro h1 h2
    rw [natDigits_eq]
    have : ¬ n < 10 := by omega
    simp only [this, if_false, List.length_append, List.length_singleton]
    rw [natDigits_eq]
    have : n / 10 < 10 := by omega
    simp [this]
  · intro h1 h2
    rw [natDigits_eq]
    have h3 : ¬ n < 10 := by omega
    simp only [h3, if_false, List.length_append, List.length_singleton]
    rw [natDigits_eq]
    have h4 : ¬ n / 10 < 10 := by omega
    simp only [h4, if_false, List.length_append, List.length_singleton]
    rw [natDigits_eq]
    have h5 : n / 10 / 10 < 10 := by omega
    simp [h5]

/-- `pad3` of a sub-1000 value always has exactly three digits. -/
theorem pad3_length (n : Nat) (h : n < 1000) : (pad3 n).length = 3 := by
  obtain ⟨l1, l2, l3⟩ := natDigits_length n
  simp only [pad3]
  by_cases h1 : n < 10
  · simp [h1, l1 h1]
  · by_cases h2 : n < 100
    · simp [h1, h2, l2 (by omega) h2]
    · simp [h1, h2, l3 (by omega) h]

/-- `jsSplit` never returns an empty component list. -/
theorem jsSplit_ne_nil (sep : Char) : ∀ l : List Char, jsSplit sep l ≠ [] := by
  intro l
  cases l with
  | nil => simp [jsSplit]
  | cons c cs =>
    simp only [jsSplit]
    split
    · simp
    · cases h : jsSplit sep cs <;> simp

/-- Splitting a separator-free string yields that single component. -/
theorem jsSplit_no_sep (sep : Char) : ∀ l : List Char, sep ∉ l → jsSplit sep l = [l] := by
  intro l
  induction l with
  | nil => intro _; rfl
  | cons c cs ih =>
    intro h
    simp only [List.mem_cons, not_or] at h
    obtain ⟨h1, h2⟩ := h
    have hcs : ¬ (c = sep) := fun hh => h1 hh.symm
    simp only [jsSplit, hcs, if_false]
    rw [ih h2]

/-- Splitting peels off the first separator-free component. -/
theorem jsSplit_append (sep : Char) (a b : List Char) (h : sep ∉ a) :
    jsSplit sep (a ++ sep :: b) = a :: jsSplit sep b := by
  induction a with
  | nil => simp [jsSplit]
  | cons c cs ih =>
    simp only [List.mem_cons, not_or] at h
    obtain ⟨h1, h2⟩ := h
    have hcs : ¬ (c = sep) := fun hh => h1 hh.symm
    simp only [List.cons_append, jsSplit, hcs, if_false, List.append_eq]
    rw [ih h2]

/-- Replacing the first occurrence past an occurrence-free head. -/
theorem replaceFirst_append (a b : Char) (x y : List Char) (h : a ∉ x) :
    replaceFirst a b (x ++ a :: y) = x ++ b :: y := by
  induction x with
  | nil => simp [replaceFirst]
  | cons c cs ih =>
    simp only [List.mem_cons, not_or] at h
    obtain ⟨h1, h2⟩ := h
    have hca : ¬ (c = a) := fun hh => h1 hh.symm
    simp only [List.cons_append, replaceFirst, hca, if_false, List.append_eq]
    rw [ih h2]

/-- Stripping the `.wav` extension recovers the base name. -/
theorem stripWav_append (x : List Char) :
    stripWav (x ++ '.' :: 'w' :: 'a' :: 'v' :: []) = x := by
  have hlen : (x ++ '.' :: 'w' :: 'a' :: 'v' :: []).length - 4 = x.length := by
    simp
  have hx : ('.' :: 'w' :: 'a' :: 'v' :: [])
      = ['.', 'w', 'a', 'v'] := rfl
  simp only [stripWav, hlen]
  rw [hx, List.drop_left, List.take_left]
  simp

/-- Characters outside the digit range never occur in a padded number. -/
theorem not_mem_pads (c : Char) (hc : c.toNat < 48 ∨ 57 < c.toNat) (n : Nat) :
    c ∉ pad2 n ∧ c ∉ pad3 n ∧ c ∉ pad4 n := by
  obtain ⟨p2, p3, p4⟩ := pad_range n
  refine ⟨fun h => ?_, fun h => ?_, fun h => ?_⟩
  · have := p2 c h; omega
  · have := p3 c h; omega
  · have := p4 c h; omega

/-- The formatted timestamp, reassociated into its component chain. -/
theorem formatStamp_eq (t : Timestamp) :
    formatStamp t
      = pad2 t.month ++ ('-' :: (pad2 t.day ++ ('-' :: (pad4 t.year ++ ('-' ::
          (pad2 t.hour ++ ('-' :: (pad2 t.minute ++ ('-' :: pad2 t.second))))))))) := by
  simp [formatStamp]

/-- Every character of a formatted timestamp is a digit or a hyphen. -/
theorem stamp_chars (t : Timestamp) :
    ∀ c ∈ formatStamp t, (48 ≤ c.toNat ∧ c.toNat ≤ 57) ∨ c = '-' := by
  intro c h
  rw [formatStamp_eq] at h
  simp only [List.mem_append, List.mem_cons] at h
  rcases h with h | h | h | h | h | h | h | h | h | h | h
  · exact Or.inl ((pad_range t.month).1 c h)
  · exact Or.inr h
  · exact Or.inl ((pad_range t.day).1 c h)
  · exact Or.inr h
  · exact Or.inl ((pad_range t.year).2.2 c h)
  · exact Or.inr h
  · exact Or.inl ((pad_range t.hour).1 c h)
  · exact Or.inr h
  · exact Or.inl ((pad_range t.minute).1 c h)
  · exact Or.inr h
  · exact Or.inl ((pad_range t.second).1 c h)

/-- The underscore never occurs in a formatted timestamp. -/
theorem underscore_not_mem_stamp (t : Timestamp) : '_' ∉ formatStamp t := by
  intro h
  have h95 : ('_').toNat = 95 := rfl
  rcases stamp_chars t '_' h with h' | h'
  · omega
  · exact absurd h' (by decide)

/-- `ratFloor` agrees with the mathematical floor. -/
theorem ratFloor_eq_floor (q : ℚ) : ratFloor q = ⌊q⌋ := Rat.floor_def.symm

/-- A rational times its denominator is its numerator. -/
theorem rat_mul_den (q : ℚ) : q * ((q.den : ℕ) : ℚ) = ((q.num : ℤ) : ℚ) := by
  have hdenQ : (0:ℚ) < ((q.den : ℕ) : ℚ) := by exact_mod_cast q.pos
  have h := Rat.num_div_den q
  have h2 : ((q.num : ℤ) : ℚ) / ((q.den : ℕ) : ℚ) * ((q.den : ℕ) : ℚ)
      = q * ((q.den : ℕ) : ℚ) := by rw [h]
  rw [div_mul_cancel₀ _ (ne_of_gt hdenQ)] at h2
  exact h2.symm

/-- `Math.round` is the identity on (casts of) whole numbers. -/
theorem jsRound_natCast (m : Nat) : jsRound (m : ℚ) = (m : Int) := by
  unfold jsRound
  rw [ratFloor_eq_floor]
  rw [show ((m : ℚ) + 1 / 2) = ((m : Int) : ℚ) + 1 / 2 by push_cast; ring]
  rw [Int.floor_int_add]
  norm_num

/-- `Math.round` recovers a whole number from any value within 3/8 of it. -/
theorem jsRound_close (y : ℚ) (m : ℕ) (h : |y - (m : ℚ)| ≤ 3 / 8) :
    jsRound y = (m : ℤ) := by
  obtain ⟨h1, h2⟩ := abs_le.1 h
  unfold jsRound
  rw [ratFloor_eq_floor, Int.floor_eq_iff]
  constructor
  · push_cast
    linarith
  · push_cast
    linarith

/-- Correctness of the fuel-driven base-2 logarithm. -/
theorem natLog2Aux_spec :
    ∀ fuel n : ℕ, 0 < n → n ≤ fuel →
      2 ^ natLog2Aux fuel n ≤ n ∧ n < 2 ^ (natLog2Aux fuel n + 1) := by
  intro fuel
  induction fuel with
  | zero => intro n h1 h2; omega
  | succ f ih =>
    intro n h1 h2
    simp only [natLog2Aux]
    by_cases hn2 : n < 2
    · simp only [hn2, if_true]
      constructor
      · simpa using h1
      · simpa using hn2
    · simp only [hn2, if_false]
      obtain ⟨hlo, hhi⟩ := ih (n / 2) (by omega) (by omega)
      constructor
      · rw [show 2 ^ (natLog2Aux f (n / 2) + 1) = 2 * 2 ^ natLog2Aux f (n / 2) by ring]
        omega
      · rw [show 2 ^ (natLog2Aux f (n / 2) + 1 + 1) = 2 * 2 ^ (natLog2Aux f (n / 2) + 1) by ring]
        omega

/-- `natLog2` brackets its positive argument between powers of two. -/
theorem natLog2_spec (n : ℕ) (hn : 0 < n) :
    2 ^ natLog2 n ≤ n ∧ n < 2 ^ (natLog2 n + 1) :=
  natLog2Aux_spec n n hn le_rfl

/-- The cross-multiplied test decides `2^t ≤ q`. -/
theorem pow2LeRat_iff (t : ℤ) (q : ℚ) (hq : 0 < q) :
    pow2LeRat t q = true ↔ (2 : ℚ) ^ t ≤ q := by
  have hdenQ : (0:ℚ) < ((q.den : ℕ) : ℚ) := by exact_mod_cast q.pos
  have hdq := rat_mul_den q
  have hmul : ∀ a b : ℚ, 0 < b → (a * b ≤ q * b ↔ a ≤ q) := fun a b hb =>
    ⟨fun h => le_of_mul_le_mul_right h hb, fun h => mul_le_mul_of_nonneg_right h hb.le⟩
  simp only [pow2LeRat]
  split
  · rename_i ht
    rw [decide_eq_true_eq]
    rw [show (2:ℚ)^t = ((2:ℚ))^(t.toNat : ℕ) by rw [← zpow_natCast, Int.toNat_of_nonneg ht]]
    rw [← hmul ((2:ℚ)^(t.toNat : ℕ)) ((q.den : ℕ) : ℚ) hdenQ, hdq]
    constructor <;> intro h <;> exact_mod_cast h
  · rename_i ht
    rw [decide_eq_true_eq]
    have hs : 0 ≤ -t := by omega
    have hzt : ((2:ℚ)^(((-t).toNat) : ℕ)) = (2:ℚ)^(-t) := by
      rw [← zpow_natCast, Int.toNat_of_nonneg hs]
    have hinv : (2:ℚ)^t * (2:ℚ)^(-t) = 1 := by
      rw [← zpow_add₀ (by norm_num : (2:ℚ) ≠ 0)]
      simp
    have h2pos : (0:ℚ) < (2:ℚ)^(((-t).toNat) : ℕ) := by positivity
    rw [← hmul ((2:ℚ)^t) ((2:ℚ)^(((-t).toNat) : ℕ) * ((q.den : ℕ) : ℚ))
      (mul_pos h2pos hdenQ)]
    have hL : (2:ℚ)^t * ((2:ℚ)^(((-t).toNat) : ℕ) * ((q.den : ℕ) : ℚ))
        = ((q.den : ℕ) : ℚ) := by
      rw [hzt, show (2:ℚ)^t * ((2:ℚ)^(-t) * ((q.den : ℕ) : ℚ))
          = ((2:ℚ)^t * (2:ℚ)^(-t)) * ((q.den : ℕ) : ℚ) from by ring, hinv, one_mul]
    have hR : q * ((2:ℚ)^(((-t).toNat) : ℕ) * ((q.den : ℕ) : ℚ))
        = ((q.num : ℤ) : ℚ) * (2:ℚ)^(((-t).toNat) : ℕ) := by
      rw [show q * ((2:ℚ)^(((-t).toNat) : ℕ) * ((q.den : ℕ) : ℚ))
          = q * ((q.den : ℕ) : ℚ) * (2:ℚ)^(((-t).toNat) : ℕ) from by ring, hdq]
    rw [hL, hR]
    constructor <;> intro h <;> exact_mod_cast h

/-- `floorLog2Rat` brackets a positive rational between powers of two. -/
theorem floorLog2Rat_spec (q : ℚ) (hq : 0 < q) :
    (2 : ℚ) ^ floorLog2Rat q ≤ q ∧ q < (2 : ℚ) ^ (floorLog2Rat q + 1) := by
  have hnum : 0 < q.num := Rat.num_pos.2 hq
  have hfl : floorLog2Rat q
      = if pow2LeRat ((natLog2 q.num.toNat : ℤ) - (natLog2 q.den : ℤ)) q
        then (natLog2 q.num.toNat : ℤ) - (natLog2 q.den : ℤ)
        else (natLog2 q.num.toNat : ℤ) - (natLog2 q.den : ℤ) - 1 := rfl
  have hq' : q = ((q.num.toNat : ℕ) : ℚ) / ((q.den : ℕ) : ℚ) := by
    have hnumQ : ((q.num.toNat : ℕ) : ℚ) = ((q.num : ℤ) : ℚ) := by
      exact_mod_cast congrArg (fun z : ℤ => (z : ℚ)) (Int.toNat_of_nonneg hnum.le)
    rw [hnumQ]
    exact (Rat.num_div_den q).symm
  have hden : 0 < q.den := q.pos
  obtain ⟨a, hA⟩ : ∃ a, q.num.toNat = a := ⟨_, rfl⟩
  obtain ⟨b, hB⟩ : ∃ b, q.den = b := ⟨_, rfl⟩
  rw [hA, hB] at hfl hq'
  rw [hB] at hden
  have ha : 0 < a := by omega
  obtain ⟨hla, hha⟩ := natLog2_spec a ha
  obtain ⟨hlb, hhb⟩ := natLog2_spec b hden
  have hbQ : (0:ℚ) < ((b : ℕ) : ℚ) := by exact_mod_cast hden
  have hz : ∀ u v : ℕ, (2:ℚ) ^ ((u:ℤ) - (v:ℤ)) = ((2^u : ℕ) : ℚ) / ((2^v : ℕ) : ℚ) := by
    intro u v
    rw [zpow_sub₀ (by norm_num : (2:ℚ) ≠ 0), zpow_natCast, zpow_natCast]
    push_cast
    ring
  have hupper1 : q < (2:ℚ) ^ (((natLog2 a : ℤ) - (natLog2 b : ℤ)) + 1) := by
    rw [show ((natLog2 a : ℤ) - (natLog2 b : ℤ)) + 1
        = ((natLog2 a + 1 : ℕ) : ℤ) - ((natLog2 b : ℕ) : ℤ) by push_cast; ring]
    rw [hz, hq', div_lt_div_iff hbQ (by positivity)]
    have hN : a * 2 ^ natLog2 b < 2 ^ (natLog2 a + 1) * b := by
      calc a * 2 ^ natLog2 b
          < 2 ^ (natLog2 a + 1) * 2 ^ natLog2 b :=
            mul_lt_mul_of_pos_right hha (pow_pos (by omega) _)
        _ ≤ 2 ^ (natLog2 a + 1) * b :=
            mul_le_mul_of_nonneg_left hlb (Nat.zero_le _)
    exact_mod_cast hN
  have hlower1 : (2:ℚ) ^ (((natLog2 a : ℤ) - (natLog2 b : ℤ)) - 1) < q := by
    rw [show ((natLog2 a : ℤ) - (natLog2 b : ℤ)) - 1
        = ((natLog2 a : ℕ) : ℤ) - ((natLog2 b + 1 : ℕ) : ℤ) by push_cast; ring]
    rw [hz, hq', div_lt_div_iff (by positivity) hbQ]
    have hN : 2 ^ natLog2 a * b < a * 2 ^ (natLog2 b + 1) := by
      calc 2 ^ natLog2 a * b ≤ a * b :=
            mul_le_mul_of_nonneg_right hla (Nat.zero_le _)
        _ < a * 2 ^ (natLog2 b + 1) :=
            mul_lt_mul_of_pos_left hhb ha
    exact_mod_cast hN
  rw [hfl]
  by_cases hc : pow2LeRat ((natLog2 a : ℤ) - (natLog2 b : ℤ)) q = true
  · rw [if_pos hc]
    exact ⟨(pow2LeRat_iff _ q hq).1 hc, hupper1⟩
  · have hcf : pow2LeRat ((natLog2 a : ℤ) - (natLog2 b : ℤ)) q = false := by
      simpa using hc
    have hcc : ¬ ((2:ℚ) ^ ((natLog2 a : ℤ) - (natLog2 b : ℤ)) ≤ q) :=
      fun hh => hc ((pow2LeRat_iff _ q hq).2 hh)
    rw [hcf]
    simp only [Bool.false_eq_true, if_false]
    constructor
    · exact le_of_lt hlower1
    · rw [sub_add_cancel]
      exact lt_of_not_le hcc

/-- `mantissaNum` represents `q / 2^e` exactly. -/
theorem mantissaNum_spec (q : ℚ) (e : ℤ) (hq : 0 < q) :
    0 < (mantissaNum q e).2 ∧
    (((mantissaNum q e).1 : ℕ) : ℚ)
      = q * (2 : ℚ) ^ (-e) * (((mantissaNum q e).2 : ℕ) : ℚ) := by
  have hnum : 0 < q.num := Rat.num_pos.2 hq
  have hnumQ : ((q.num.toNat : ℕ) : ℚ) = ((q.num : ℤ) : ℚ) := by
    exact_mod_cast congrArg (fun z : ℤ => (z : ℚ)) (Int.toNat_of_nonneg hnum.le)
  have hdenQ : (0:ℚ) < ((q.den : ℕ) : ℚ) := by exact_mod_cast q.pos
  have hdq := rat_mul_den q
  simp only [mantissaNum]
  split
  · rename_i he
    refine ⟨Nat.mul_pos q.pos (pow_pos (by omega) _), ?_⟩
    have het : ((2:ℚ)^(e.toNat : ℕ)) = (2:ℚ)^e := by
      rw [← zpow_natCast, Int.toNat_of_nonneg he]
    have h2e : (2:ℚ)^(-e) * (2:ℚ)^e = 1 := by
      rw [← zpow_add₀ (by norm_num : (2:ℚ) ≠ 0)]
      simp
    calc ((q.num.toNat : ℕ) : ℚ) = ((q.num : ℤ) : ℚ) := hnumQ
      _ = q * ((q.den : ℕ) : ℚ) * ((2:ℚ)^(-e) * (2:ℚ)^e) := by rw [hdq, h2e]; ring
      _ = q * (2:ℚ)^(-e) * (((q.den : ℕ) : ℚ) * (2:ℚ)^(e.toNat : ℕ)) := by rw [het]; ring
      _ = q * (2:ℚ)^(-e) * (((q.den * 2 ^ e.toNat : ℕ) : ℕ) : ℚ) := by push_cast; ring
  · rename_i he
    refine ⟨q.pos, ?_⟩
    have hs : 0 ≤ -e := by omega
    have het : ((2:ℚ)^(((-e).toNat) : ℕ)) = (2:ℚ)^(-e) := by
      rw [← zpow_natCast, Int.toNat_of_nonneg hs]
    calc (((q.num.toNat * 2 ^ (-e).toNat : ℕ) : ℕ) : ℚ)
        = ((q.num : ℤ) : ℚ) * (2:ℚ)^(((-e).toNat) : ℕ) := by push_cast [hnumQ]; ring
      _ = q * ((q.den : ℕ) : ℚ) * (2:ℚ)^(-e) := by rw [hdq, het]
      _ = q * (2:ℚ)^(-e) * ((q.den : ℕ) : ℚ) := by ring

/-- The half-even rounding is within half a unit. -/
theorem roundHalfEvenNat_err (A B : ℕ) (hB : 0 < B) :
    |((roundHalfEvenNat A B : ℕ) : ℚ) * ((B : ℕ) : ℚ) - ((A : ℕ) : ℚ)| ≤ ((B : ℕ) : ℚ) / 2 := by
  have hd := Nat.div_add_mod A B
  have hm : A % B < B := Nat.mod_lt _ hB
  have hAQ : ((A : ℕ) : ℚ) = ((B : ℕ) : ℚ) * ((A / B : ℕ) : ℚ) + ((A % B : ℕ) : ℚ) := by
    exact_mod_cast congrArg (fun n : ℕ => (n : ℚ)) hd.symm
  have hBQ : (0:ℚ) < ((B : ℕ) : ℚ) := by exact_mod_cast hB
  have hmQ : ((A % B : ℕ) : ℚ) < ((B : ℕ) : ℚ) := by exact_mod_cast hm
  have hm0 : (0:ℚ) ≤ ((A % B : ℕ) : ℚ) := by positivity
  simp only [roundHalfEvenNat]
  split
  · rename_i hlt
    have hltQ : 2 * ((A % B : ℕ) : ℚ) < ((B : ℕ) : ℚ) := by exact_mod_cast hlt
    rw [show ((A / B : ℕ) : ℚ) * ((B : ℕ) : ℚ) - ((A : ℕ) : ℚ) = -((A % B : ℕ) : ℚ) by
      rw [hAQ]; ring]
    rw [abs_neg, abs_of_nonneg hm0]
    linarith
  · split
    · rename_i h1 h2
      have h2Q : ((B : ℕ) : ℚ) < 2 * ((A % B : ℕ) : ℚ) := by exact_mod_cast h2
      rw [show (((A / B + 1 : ℕ) : ℕ) : ℚ) * ((B : ℕ) : ℚ) - ((A : ℕ) : ℚ)
          = ((B : ℕ) : ℚ) - ((A % B : ℕ) : ℚ) by push_cast; rw [hAQ]; push_cast; ring]
      rw [abs_of_nonneg (by linarith)]
      linarith
    · rename_i h1 h2
      have htie : 2 * (A % B) = B := by omega
      have htieQ : 2 * ((A % B : ℕ) : ℚ) = ((B : ℕ) : ℚ) := by exact_mod_cast htie
      split
      · rw [show ((A / B : ℕ) : ℚ) * ((B : ℕ) : ℚ) - ((A : ℕ) : ℚ) = -((A % B : ℕ) : ℚ) by
          rw [hAQ]; ring]
        rw [abs_neg, abs_of_nonneg hm0]
        linarith
      · rw [show (((A / B + 1 : ℕ) : ℕ) : ℚ) * ((B : ℕ) : ℚ) - ((A : ℕ) : ℚ)
            = ((B : ℕ) : ℚ) - ((A % B : ℕ) : ℚ) by push_cast; rw [hAQ]; push_cast; ring]
        rw [abs_of_nonneg (by linarith)]
        linarith

/-- On a positive rational, `roundToDouble` is the rounded mantissa scaled
back by the chosen power of two. -/
theorem roundToDouble_pos_eq (q : ℚ) (hq : 0 < q) :
    roundToDouble q
      = ((roundHalfEvenNat (mantissaNum q (floorLog2Rat q - 52)).1
            (mantissaNum q (floorLog2Rat q - 52)).2 : ℕ) : ℚ)
          * (2 : ℚ) ^ (floorLog2Rat q - 52) := by
  have hnum : ¬ q.num ≤ 0 := by
    have := Rat.num_pos.2 hq
    omega
  simp only [roundToDouble, hnum, if_false]
  split
  · rename_i he
    push_cast
    rw [← zpow_natCast (2:ℚ) (floorLog2Rat q - 52).toNat, Int.toNat_of_nonneg he]
  · rename_i he
    have hs : 0 ≤ -(floorLog2Rat q - 52) := by omega
    rw [show (2:ℚ) ^ (floorLog2Rat q - 52)
        = ((2:ℚ) ^ (((-(floorLog2Rat q - 52)).toNat) : ℕ))⁻¹ by
      rw [← zpow_natCast (2:ℚ) ((-(floorLog2Rat q - 52)).toNat),
        Int.toNat_of_nonneg hs, ← zpow_neg, neg_neg]]
    rw [div_eq_mul_inv]
    push_cast
    ring

/-- `roundToDouble` maps nonpositive input to zero. -/
theorem roundToDouble_nonpos (q : ℚ) (h : q ≤ 0) : roundToDouble q = 0 := by
  have : q.num ≤ 0 := by
    by_contra hc
    have : 0 < q := Rat.num_pos.1 (by omega)
    linarith
  simp [roundToDouble, this]

/-- Relative-error bound for `roundToDouble`: never off by more than one
part in `2^53` of the value. -/
theorem roundToDouble_err (q : ℚ) (hq : 0 < q) :
    |roundToDouble q - q| ≤ q / 2 ^ 53 := by
  obtain ⟨hB, hA⟩ := mantissaNum_spec q (floorLog2Rat q - 52) hq
  obtain ⟨hflo, hfhi⟩ := floorLog2Rat_spec q hq
  rw [roundToDouble_pos_eq q hq]
  obtain ⟨e, hE⟩ : ∃ e, floorLog2Rat q - 52 = e := ⟨_, rfl⟩
  have hfl52 : floorLog2Rat q = e + 52 := by omega
  rw [hE] at hB hA ⊢
  rw [hfl52] at hflo
  obtain ⟨A, hMA⟩ : ∃ A, (mantissaNum q e).1 = A := ⟨_, rfl⟩
  obtain ⟨B, hMB⟩ : ∃ B, (mantissaNum q e).2 = B := ⟨_, rfl⟩
  rw [hMB] at hB
  rw [hMA, hMB] at hA
  rw [hMA, hMB]
  obtain ⟨n, hN⟩ : ∃ n, roundHalfEvenNat A B = n := ⟨_, rfl⟩
  rw [hN]
  have herr := roundHalfEvenNat_err A B hB
  rw [hN] at herr
  have hBQ : (0:ℚ) < ((B : ℕ) : ℚ) := by exact_mod_cast hB
  have h1 : (2:ℚ)^(-e) * (2:ℚ)^e = 1 := by
    rw [← zpow_add₀ (by norm_num : (2:ℚ) ≠ 0)]
    simp
  have hqe : q = ((A : ℕ) : ℚ) / ((B : ℕ) : ℚ) * (2:ℚ)^e := by
    rw [hA]
    calc q = q * ((2:ℚ)^(-e) * (2:ℚ)^e) * (((B : ℕ) : ℚ) / ((B : ℕ) : ℚ)) := by
          rw [h1, div_self (ne_of_gt hBQ)]
          ring
      _ = q * (2:ℚ)^(-e) * ((B : ℕ) : ℚ) / ((B : ℕ) : ℚ) * (2:ℚ)^e := by ring
  have hfact : ((n : ℕ) : ℚ) * (2:ℚ)^e - q
      = (((n : ℕ) : ℚ) * ((B : ℕ) : ℚ) - ((A : ℕ) : ℚ))
        * ((2:ℚ)^e / ((B : ℕ) : ℚ)) := by
    rw [hqe]
    field_simp
    ring
  rw [hfact, abs_mul,
    abs_of_pos (show (0:ℚ) < (2:ℚ)^e / ((B : ℕ) : ℚ) by positivity)]
  have hstep : |((n : ℕ) : ℚ) * ((B : ℕ) : ℚ) - ((A : ℕ) : ℚ)|
        * ((2:ℚ)^e / ((B : ℕ) : ℚ))
      ≤ (((B : ℕ) : ℚ) / 2) * ((2:ℚ)^e / ((B : ℕ) : ℚ)) :=
    mul_le_mul_of_nonneg_right herr (by positivity)
  have heq : (((B : ℕ) : ℚ) / 2) * ((2:ℚ)^e / ((B : ℕ) : ℚ))
      = (2:ℚ)^e / 2 := by
    field_simp
    ring
  have hpow : (2:ℚ) ^ e * 2 ^ (53:ℕ) = (2:ℚ) ^ (e + 52) * 2 := by
    rw [show ((2:ℚ) ^ (53:ℕ)) = (2:ℚ) ^ ((53:ℕ):ℤ) from (zpow_natCast 2 53).symm,
      ← zpow_add₀ (by norm_num : (2:ℚ) ≠ 0),
      ← zpow_add_one₀ (by norm_num : (2:ℚ) ≠ 0)]
    congr 1
    push_cast
    ring
  have hfin : (2:ℚ)^e / 2 ≤ q / 2 ^ (53:ℕ) := by
    rw [div_le_div_iff (by norm_num) (by positivity)]
    rw [hpow]
    have := mul_le_mul_of_nonneg_right hflo (show (0:ℚ) ≤ 2 by norm_num)
    linarith
  exact hstep.trans (heq.trans_le hfin)

/-- The underscore never occurs in the formatted frequency part. -/
theorem underscore_not_mem_freqPart (q r : Nat) :
    '_' ∉ natDigits q ++ '-' :: pad3 r := by
  intro h
  simp only [List.mem_append, List.mem_cons] at h
  rcases h with h | h | h
  · exact not_mem_natDigits '_' (Or.inr (by decide)) q h
  · exact absurd h (by decide)
  · exact (not_mem_pads '_' (Or.inr (by decide)) r).2.1 h

/-- Error analysis of the double pipeline on 1 kHz multiples below 2^50:
the `toFixed(3)` scaling recovers `k` (thousands of Hz), and
`Math.round(parseFloat(...) * 1e6)` recovers `1000 * k` exactly, because
the two rounding errors total at most `3k/2^53 < 3/8`. -/
theorem double_pipeline (k : ℕ) (hk : 0 < k) (hkb : 1000 * k < 2 ^ 50) :
    (ratFloor (roundToDouble ((k : ℚ) / 1000) * 1000 + 1 / 2)).toNat = k ∧
    jsRound (roundToDouble (roundToDouble ((k : ℚ) / 1000) * 1000000))
      = ((1000 * k : ℕ) : ℤ) := by
  have hkQ : (0:ℚ) < (k:ℚ) := by exact_mod_cast hk
  have hk1 : (1:ℚ) ≤ (k:ℚ) := by exact_mod_cast hk
  have hkN : k ≤ 1125899906842 := by
    have h50 : (2:ℕ)^50 = 1125899906842624 := by norm_num
    omega
  have hkB : (k:ℚ) ≤ 1125899906842 := by exact_mod_cast hkN
  have hp : (2:ℚ) ^ (53:ℕ) = 9007199254740992 := by norm_num
  have hvpos : (0:ℚ) < (k : ℚ) / 1000 := by positivity
  have he1 := roundToDouble_err ((k : ℚ) / 1000) hvpos
  rw [hp] at he1
  obtain ⟨he1a, he1b⟩ := abs_le.1 he1
  obtain ⟨x, hX⟩ : ∃ x, roundToDouble ((k : ℚ) / 1000) = x := ⟨_, rfl⟩
  rw [hX] at he1a he1b ⊢
  have hq53 : (k:ℚ) / 9007199254740992 < 1 / 8 := by
    rw [div_lt_iff (by norm_num)]
    linarith
  have hA1 : -((k:ℚ) / 9007199254740992) ≤ x * 1000 - (k:ℚ) := by linarith
  have hA2 : x * 1000 - (k:ℚ) ≤ (k:ℚ) / 9007199254740992 := by linarith
  have hfl1 : ratFloor (x * 1000 + 1 / 2) = (k : ℤ) := by
    rw [ratFloor_eq_floor, Int.floor_eq_iff]
    constructor
    · push_cast
      linarith
    · push_cast
      linarith
  refine ⟨by rw [hfl1]; omega, ?_⟩
  have hxpos : (0:ℚ) < x := by linarith
  have hzpos : (0:ℚ) < x * 1000000 := by positivity
  have he2 := roundToDouble_err (x * 1000000) hzpos
  rw [hp] at he2
  obtain ⟨he2a, he2b⟩ := abs_le.1 he2
  obtain ⟨y, hY⟩ : ∃ y, roundToDouble (x * 1000000) = y := ⟨_, rfl⟩
  rw [hY] at he2a he2b ⊢
  have hz1 : -(1000 * (k:ℚ) / 9007199254740992) ≤ x * 1000000 - 1000 * (k:ℚ) := by
    linarith
  have hz2 : x * 1000000 - 1000 * (k:ℚ) ≤ 1000 * (k:ℚ) / 9007199254740992 := by
    linarith
  have hzcoarse : x * 1000000 ≤ 2000 * (k:ℚ) := by
    have h : 1000 * (k:ℚ) / 9007199254740992 ≤ 1000 * (k:ℚ) := by
      rw [div_le_iff (by norm_num)]
      linarith
    linarith
  have hy1 : |y - 1000 * (k:ℚ)| ≤ 3000 * (k:ℚ) / 9007199254740992 := by
    rw [abs_le]
    constructor
    · linarith
    · linarith
  have hy38 : 3000 * (k:ℚ) / 9007199254740992 ≤ 3 / 8 := by
    rw [div_le_iff (by norm_num)]
    linarith
  have hcast : ((1000 * k : ℕ) : ℚ) = 1000 * (k:ℚ) := by push_cast; ring
  exact jsRound_close y (1000 * k) (by rw [hcast]; exact hy1.trans hy38)

unseal Rat.mul Rat.add Rat.inv in
/-- The pipeline at 0 Hz: `roundToDouble` fixes 0 and both roundings are
exact. -/
theorem pipeline_zero :
    (ratFloor (roundToDouble (((0:ℕ) : ℚ) / 1000) * 1000 + 1 / 2)).toNat = 0 ∧
    jsRound (roundToDouble (roundToDouble (((0:ℕ) : ℚ) / 1000) * 1000000))
      = ((1000 * 0 : ℕ) : ℤ) := by
  decide

/-- String plumbing of the round trip: with the two numeric pipeline facts
as hypotheses, parsing the generated name recovers frequency and ISO
timestamp. -/
theorem parse_create_aux (k : ℕ) (t : Timestamp)
    (hscaled : (ratFloor (roundToDouble ((k : ℚ) / 1000) * 1000 + 1 / 2)).toNat = k)
    (hround : jsRound (roundToDouble (roundToDouble ((k : ℚ) / 1000) * 1000000))
      = ((1000 * k : ℕ) : ℤ)) :
    parseRecordingFileName (createRecordingFileName (1000 * k) t)
      = (((1000 * k : ℕ) : ℤ), isoOfStamp t) := by
  have hdiv : ((1000 * k : ℕ) : ℚ) / 1000000 = (k : ℚ) / 1000 := by
    push_cast
    ring
  have hrlt : k % 1000 < 1000 := by omega
  have hdotq : '.' ∉ natDigits (k / 1000) :=
    not_mem_natDigits '.' (Or.inl (by decide)) _
  have hdashq : '-' ∉ natDigits (k / 1000) :=
    not_mem_natDigits '-' (Or.inl (by decide)) _
  have hdotp : '.' ∉ pad3 (k % 1000) :=
    (not_mem_pads '.' (Or.inl (by decide)) _).2.1
  have hname : (createRecordingFileName (1000 * k) t).data
      = (natDigits (k / 1000) ++ '-' :: pad3 (k % 1000)) ++ '_' :: formatStamp t
          ++ '.' :: 'w' :: 'a' :: 'v' :: [] := by
    simp only [createRecordingFileName, toFixed3, hdiv, hscaled]
    rw [replaceFirst_append '.' '-' (natDigits (k / 1000)) (pad3 (k % 1000)) hdotq]
  have hstrip : stripWav ((natDigits (k / 1000) ++ '-' :: pad3 (k % 1000))
        ++ '_' :: formatStamp t ++ '.' :: 'w' :: 'a' :: 'v' :: [])
      = (natDigits (k / 1000) ++ '-' :: pad3 (k % 1000)) ++ '_' :: formatStamp t :=
    stripWav_append _
  have hsplitU : jsSplit '_' ((natDigits (k / 1000) ++ '-' :: pad3 (k % 1000))
        ++ '_' :: formatStamp t)
      = (natDigits (k / 1000) ++ '-' :: pad3 (k % 1000)) :: [formatStamp t] := by
    rw [jsSplit_append '_' _ _ (underscore_not_mem_freqPart _ _),
      jsSplit_no_sep '_' _ (underscore_not_mem_stamp t)]
  have hrepl : replaceFirst '-' '.' (natDigits (k / 1000) ++ '-' :: pad3 (k % 1000))
      = natDigits (k / 1000) ++ '.' :: pad3 (k % 1000) :=
    replaceFirst_append '-' '.' _ _ hdashq
  have hsplitDot : jsSplit '.' (natDigits (k / 1000) ++ '.' :: pad3 (k % 1000))
      = [natDigits (k / 1000), pad3 (k % 1000)] := by
    rw [jsSplit_append '.' _ _ hdotq, jsSplit_no_sep '.' _ hdotp]
  have hdec : ((k / 1000 : ℕ) : ℚ) + ((k % 1000 : ℕ) : ℚ) / 10 ^ 3
      = (k : ℚ) / 1000 := by
    have hkdm : (1000 * (k / 1000) + k % 1000 : ℕ) = k := Nat.div_add_mod k 1000
    calc ((k / 1000 : ℕ) : ℚ) + ((k % 1000 : ℕ) : ℚ) / 10 ^ 3
        = ((1000 * (k / 1000) + k % 1000 : ℕ) : ℚ) / 1000 := by push_cast; ring
      _ = (k : ℚ) / 1000 := by rw [hkdm]
  have hfloat : jsParseFloat (natDigits (k / 1000) ++ '.' :: pad3 (k % 1000))
      = roundToDouble ((k : ℚ) / 1000) := by
    simp only [jsParseFloat, decimalValue, hsplitDot]
    rw [parseDigits_natDigits, (parseDigits_pads (k % 1000)).2.1, pad3_length _ hrlt]
    rw [hdec]
  have hdashM : '-' ∉ pad2 t.month := (not_mem_pads '-' (Or.inl (by decide)) _).1
  have hdashD : '-' ∉ pad2 t.day := (not_mem_pads '-' (Or.inl (by decide)) _).1
  have hdashY : '-' ∉ pad4 t.year := (not_mem_pads '-' (Or.inl (by decide)) _).2.2
  have hdashH : '-' ∉ pad2 t.hour := (not_mem_pads '-' (Or.inl (by decide)) _).1
  have hdashMi : '-' ∉ pad2 t.minute := (not_mem_pads '-' (Or.inl (by decide)) _).1
  have hdashS : '-' ∉ pad2 t.second := (not_mem_pads '-' (Or.inl (by decide)) _).1
  have hsplitDate : jsSplit '-' (formatStamp t)
      = [pad2 t.month, pad2 t.day, pad4 t.year, pad2 t.hour, pad2 t.minute,
         pad2 t.second] := by
    rw [formatStamp_eq, jsSplit_append '-' _ _ hdashM, jsSplit_append '-' _ _ hdashD,
      jsSplit_append '-' _ _ hdashY, jsSplit_append '-' _ _ hdashH,
      jsSplit_append '-' _ _ hdashMi, jsSplit_no_sep '-' _ hdashS]
  simp only [parseRecordingFileName, hname, hstrip, hsplitU, List.headD_cons,
    List.drop_succ_cons, List.drop_zero, hrepl, hfloat, hsplitDate]
  rw [hround]
  simp [isoOfStamp]

/-- General naming round trip on 1 kHz multiples below 2^50: parsing a
generated name recovers the frequency and the ISO rendering of the
timestamp. -/
theorem parse_createRecordingFileName (freq : Nat) (t : Timestamp) (hdvd : 1000 ∣ freq)
    (hbound : freq < 2 ^ 50) :
    parseRecordingFileName (createRecordingFileName freq t)
      = ((freq : Int), isoOfStamp t) := by
  obtain ⟨k, rfl⟩ := hdvd
  rcases Nat.eq_zero_or_pos k with hk | hk
  · subst hk
    exact parse_create_aux 0 t pipeline_zero.1 pipeline_zero.2
  · obtain ⟨hs, hr⟩ := double_pipeline k hk hbound
    exact parse_create_aux k t hs hr

unseal Rat.mul Rat.add Rat.inv in
/-- C9 counterexample: at 8589934592001000 Hz — a 1 kHz multiple below
2^53 — the parser does not recover the namer’s frequency.
`parseFloat("8589934592.001")` rounds to the nearest double slightly below
the decimal value, the `* 1e6` double multiply rounds again, and
`Math.round` lands on 8589934592000999, one hertz short. -/
theorem recordingFileName_roundTrip_fails_near_2pow53 :
    1000 ∣ 8589934592001000 ∧ 8589934592001000 < 2 ^ 53 ∧
    (parseRecordingFileName (createRecordingFileName 8589934592001000 exStamp)).1
      = 8589934592000999 ∧ (8589934592000999 : ℤ) ≠ 8589934592001000 := by
  refine ⟨by decide, by decide, ?_, by decide⟩
  decide

unseal Rat.mul Rat.add Rat.inv in
/-- C9.  The recording file namer and the filename parser round-trip on
the program’s operating range: the worked example from the spec is
bit-exact, and for every frequency that is a whole multiple of 1 kHz and
below 2^50 (≈ 1.1 PHz, far above any SDR tuning range; the combined
relative error of the two IEEE-double roundings in the parser is then
below the half-hertz that `Math.round` tolerates — at 1 kHz multiples
near 2^53 the round trip genuinely fails) and every timestamp, parsing
the generated name recovers the frequency in Hz and the timestamp as its
ISO-8601 rendering. -/
theorem recordingFileName_roundTrip :
    createRecordingFileName 161175000 exStamp = "161-175_01-20-2025-06-19-45.wav" ∧
    parseRecordingFileName "161-175_01-20-2025-06-19-45.wav"
      = ((161175000 : Int), "2025-01-20T06:19:45") ∧
    isoOfStamp exStamp = "2025-01-20T06:19:45" ∧
    (∀ (freq : Nat) (t : Timestamp), 1000 ∣ freq → freq < 2 ^ 50 →
      parseRecordingFileName (createRecordingFileName freq t)
        = ((freq : Int), isoOfStamp t)) := by
  have h1 : createRecordingFileName 161175000 exStamp
      = "161-175_01-20-2025-06-19-45.wav" := by decide
  refine ⟨h1, ?_, by decide,
    fun freq t hd hb => parse_createRecordingFileName freq t hd hb⟩
  rw [← h1, parse_createRecordingFileName 161175000 exStamp (by decide) (by decide)]
  decide

/-- C9 witness: the round trip at 160 MHz and a two-digit-everything
timestamp. -/
theorem recordingFileName_roundTrip_witness :
    1000 ∣ 160000000 ∧ 160000000 < 2 ^ 50 ∧
    parseRecordingFileName (createRecordingFileName 160000000
        { year := 2024, month := 12, day := 31, hour := 23, minute := 59, second := 58 })
      = ((160000000 : Int), isoOfStamp
        { year := 2024, month := 12, day := 31, hour := 23, minute := 59, second := 58 }) :=
  ⟨by decide, by decide,
   recordingFileName_roundTrip.2.2.2 160000000 _ (by decide) (by decide)⟩

end SdrScanner
